import Mathlib

/-!
Shallow embedding of the retriever core of this repository
(src/core/api_client.py, src/core/formatters.py, src/core/processors.py,
src/ui/authors.py) and a verification of the specification claims about it.

Modelling conventions:
  * JSON values are modelled by the inductive type JVal; numbers are modelled
    as integers (every numeric field the claims touch is a count, a year, a
    token position or an integrally-valued score).
  * Python dictionaries are modelled as insertion-ordered association lists.
  * Python exceptions are modelled by Except String; a raised exception is an
    error value that aborts the enclosing computation, exactly as a Python
    exception propagates.
  * Python floats only occur as retry backoff amounts; these are modelled
    exactly as rationals.
  * String operations (strip, split, join, lower, endswith, re.sub of a fixed
    literal pattern) are implemented at the character-list level so that every
    definition evaluates by kernel reduction.
-/

/-- JSON-like values as delivered by the API and stored in row dictionaries. -/
inductive JVal where
  | null
  | bool (b : Bool)
  | num (n : Int)
  | str (s : String)
  | arr (xs : List JVal)
  | obj (fields : List (String × JVal))
deriving Repr

mutual

/-- Structural boolean equality on JVal (Python == on these value shapes). -/
def JVal.beq : JVal → JVal → Bool
  | .null, .null => true
  | .bool a, .bool c => a == c
  | .num a, .num c => a == c
  | .str a, .str c => a == c
  | .arr a, .arr c => JVal.beqList a c
  | .obj a, .obj c => JVal.beqObj a c
  | _, _ => false

/-- Elementwise boolean equality for JVal arrays. -/
def JVal.beqList : List JVal → List JVal → Bool
  | [], [] => true
  | x :: xs, y :: ys => JVal.beq x y && JVal.beqList xs ys
  | _, _ => false

/-- Pairwise boolean equality for JVal objects. -/
def JVal.beqObj : List (String × JVal) → List (String × JVal) → Bool
  | [], [] => true
  | (k, v) :: xs, (k2, v2) :: ys => k == k2 && JVal.beq v v2 && JVal.beqObj xs ys
  | _, _ => false

end

mutual

/-- Soundness and completeness of JVal.beq. -/
def JVal.beqIff : (a b : JVal) → (JVal.beq a b = true ↔ a = b)
  | .null, .null => by simp [JVal.beq]
  | .null, .bool _ => by simp [JVal.beq]
  | .null, .num _ => by simp [JVal.beq]
  | .null, .str _ => by simp [JVal.beq]
  | .null, .arr _ => by simp [JVal.beq]
  | .null, .obj _ => by simp [JVal.beq]
  | .bool _, .null => by simp [JVal.beq]
  | .bool a, .bool c => by simp [JVal.beq]
  | .bool _, .num _ => by simp [JVal.beq]
  | .bool _, .str _ => by simp [JVal.beq]
  | .bool _, .arr _ => by simp [JVal.beq]
  | .bool _, .obj _ => by simp [JVal.beq]
  | .num _, .null => by simp [JVal.beq]
  | .num _, .bool _ => by simp [JVal.beq]
  | .num a, .num c => by simp [JVal.beq]
  | .num _, .str _ => by simp [JVal.beq]
  | .num _, .arr _ => by simp [JVal.beq]
  | .num _, .obj _ => by simp [JVal.beq]
  | .str _, .null => by simp [JVal.beq]
  | .str _, .bool _ => by simp [JVal.beq]
  | .str _, .num _ => by simp [JVal.beq]
  | .str a, .str c => by simp [JVal.beq]
  | .str _, .arr _ => by simp [JVal.beq]
  | .str _, .obj _ => by simp [JVal.beq]
  | .arr _, .null => by simp [JVal.beq]
  | .arr _, .bool _ => by simp [JVal.beq]
  | .arr _, .num _ => by simp [JVal.beq]
  | .arr _, .str _ => by simp [JVal.beq]
  | .arr a, .arr c => by
      simp only [JVal.beq, JVal.arr.injEq]
      exact JVal.beqListIff a c
  | .arr _, .obj _ => by simp [JVal.beq]
  | .obj _, .null => by simp [JVal.beq]
  | .obj _, .bool _ => by simp [JVal.beq]
  | .obj _, .num _ => by simp [JVal.beq]
  | .obj _, .str _ => by simp [JVal.beq]
  | .obj _, .arr _ => by simp [JVal.beq]
  | .obj a, .obj c => by
      simp only [JVal.beq, JVal.obj.injEq]
      exact JVal.beqObjIff a c

/-- Elementwise version of JVal.beqIff. -/
def JVal.beqListIff : (as cs : List JVal) → (JVal.beqList as cs = true ↔ as = cs)
  | [], [] => by simp [JVal.beqList]
  | [], _ :: _ => by simp [JVal.beqList]
  | _ :: _, [] => by simp [JVal.beqList]
  | x :: xs, y :: ys => by
      simp only [JVal.beqList, Bool.and_eq_true, List.cons.injEq]
      exact and_congr (JVal.beqIff x y) (JVal.beqListIff xs ys)

/-- Pairwise version of JVal.beqIff. -/
def JVal.beqObjIff : (as cs : List (String × JVal)) → (JVal.beqObj as cs = true ↔ as = cs)
  | [], [] => by simp [JVal.beqObj]
  | [], _ :: _ => by simp [JVal.beqObj]
  | _ :: _, [] => by simp [JVal.beqObj]
  | (k, v) :: xs, (k2, v2) :: ys => by
      simp only [JVal.beqObj, Bool.and_eq_true, List.cons.injEq, Prod.mk.injEq, beq_iff_eq,
        and_assoc]
      exact and_congr Iff.rfl (and_congr (JVal.beqIff v v2) (JVal.beqObjIff xs ys))

end

instance : DecidableEq JVal := fun a b => decidable_of_iff _ (JVal.beqIff a b)

/-- Python truthiness for JVal values. -/
def JVal.truthy : JVal → Bool
  | .null => false
  | .bool b => b
  | .num n => n != 0
  | .str s => s != ""
  | .arr xs => !xs.isEmpty
  | .obj fs => !fs.isEmpty

/-- A Python dictionary row: insertion-ordered keys mapping to JSON values. -/
abbrev Row := List (String × JVal)

/-- Python dict lookup: value of the first binding of the key, if any. -/
def rowGet (r : Row) (k : String) : Option JVal :=
  (r.find? (fun p => p.1 == k)).map (fun p => p.2)

/-- Python dict.get with a default. -/
def rowGetD (r : Row) (k : String) (d : JVal) : JVal :=
  (rowGet r k).getD d

/-- Python dict assignment: overwrite an existing key in place, else append. -/
def rowSet (r : Row) (k : String) (v : JVal) : Row :=
  if r.any (fun p => p.1 == k) then r.map (fun p => if p.1 == k then (k, v) else p)
  else r ++ [(k, v)]

/-! Python string primitives at the character-list level. -/

/-- Code points Python str.isspace holds for (the set str.split and str.strip
use): ASCII whitespace, the C1 whitespace controls, and the Unicode space
separators plus the two line/paragraph separators. -/
def pySpaceCodes : List Nat :=
  [9, 10, 11, 12, 13, 28, 29, 30, 31, 32, 133, 160, 0x1680,
   0x2000, 0x2001, 0x2002, 0x2003, 0x2004, 0x2005, 0x2006, 0x2007, 0x2008,
   0x2009, 0x200a, 0x2028, 0x2029, 0x202f, 0x205f, 0x3000]

/-- Python whitespace test on one character. -/
def pyIsSpace (c : Char) : Bool := pySpaceCodes.contains c.toNat

/-- Python str.strip with no arguments: drop whitespace from both ends. -/
def pyStripChars (l : List Char) : List Char :=
  ((l.dropWhile pyIsSpace).reverse.dropWhile pyIsSpace).reverse

/-- Python str.strip on a whole string. -/
def pyStripStr (s : String) : String := String.mk (pyStripChars s.data)

theorem dropWhile_length_le {α : Type} (p : α → Bool) (l : List α) :
    (l.dropWhile p).length ≤ l.length := by
  induction l with
  | nil => simp [List.dropWhile]
  | cons a l ih =>
    simp only [List.dropWhile]
    split
    · exact Nat.le_succ_of_le ih
    · simp

/-- Python str.split with no arguments: maximal whitespace-free words, empty
words dropped. -/
def pyWords : List Char → List (List Char)
  | [] => []
  | c :: cs =>
    if pyIsSpace c then pyWords cs
    else (c :: cs.takeWhile (fun d => !pyIsSpace d)) ::
      pyWords (cs.dropWhile (fun d => !pyIsSpace d))
termination_by l => l.length
decreasing_by
  · simp only [List.length_cons]
    omega
  · simp only [List.length_cons]
    have h := dropWhile_length_le (fun d => !pyIsSpace d) cs
    omega

/-- Python sep.join at the character level. -/
def joinWith (sep : List Char) : List (List Char) → List Char
  | [] => []
  | [w] => w
  | w :: ws => w ++ sep ++ joinWith sep ws

/-- Python s.split(sep) for a one-character separator: keeps empty pieces, and
the split of the empty string is one empty piece. -/
def splitOnChar (sep : Char) : List Char → List (List Char)
  | [] => [[]]
  | c :: cs =>
    if c = sep then [] :: splitOnChar sep cs
    else
      match splitOnChar sep cs with
      | [] => [[c]]
      | w :: ws => (c :: w) :: ws

/-- Python re.sub(pat, "", s) for a fixed literal pattern: remove every
leftmost non-overlapping occurrence. The fuel argument (instantiated with the
input length, which bounds the number of steps since every step consumes at
least one character) makes the recursion structural. -/
def removeAllFuel (pat : List Char) : Nat → List Char → List Char
  | _, [] => []
  | 0, l => l
  | fuel + 1, c :: cs =>
    if pat.isPrefixOf (c :: cs) ∧ pat ≠ [] then
      removeAllFuel pat fuel ((c :: cs).drop pat.length)
    else c :: removeAllFuel pat fuel cs

/-- Removal of every leftmost non-overlapping occurrence of a pattern. -/
def removeAllSub (pat : List Char) (l : List Char) : List Char :=
  removeAllFuel pat l.length l

/-- Python s.replace(pat, "") / re.sub of a literal pattern on strings. -/
def removePat (pat : String) (s : String) : String :=
  String.mk (removeAllSub pat.data s.data)

/-- Lexicographic code-point comparison of character lists (Python str order). -/
def lexLe : List Char → List Char → Bool
  | [], _ => true
  | _ :: _, [] => false
  | a :: as, b :: bs => if a.toNat = b.toNat then lexLe as bs else Nat.blt a.toNat b.toNat

/-- Python string less-or-equal (code-point lexicographic). -/
def strLe (a b : String) : Bool := lexLe a.data b.data

/-- The ordering relation used to sort strings, as a Prop. -/
def strLeR (a b : String) : Prop := strLe a b = true

instance : DecidableRel strLeR := fun a b => inferInstanceAs (Decidable (_ = true))

/-- Python sorted on a list of strings. -/
def sortStr (xs : List String) : List String := List.insertionSort strLeR xs

/-- Python str.lower, on the ASCII range (identifier URLs are ASCII). -/
def pyLower (s : String) : String := String.mk (s.data.map Char.toLower)

/-- Python str.endswith via list suffix matching. -/
def strEndsWith (s suf : String) : Bool := suf.data.isSuffixOf s.data

/-- Python str.upper, on the ASCII range. -/
def pyUpper (s : String) : String := String.mk (s.data.map Char.toUpper)

/-- Python str(x) for the scalar shapes; container rendering abstracts the
Python repr of nested structures (no claim evaluates it on containers). -/
def pyStr : JVal → String
  | .null => "None"
  | .bool true => "True"
  | .bool false => "False"
  | .num n => toString n
  | .str s => s
  | .arr _ => "[...]"
  | .obj _ => "\x7b...\x7d"

/-- Python f-string formatting of an integral value with spec .4f. -/
def fmt4 : JVal → Option String
  | .num n => some (toString n ++ ".0000")
  | .bool b => some (if b then "1.0000" else "0.0000")
  | _ => none

/-- Python f-string formatting of an integral value with spec .2f. -/
def fmt2 : JVal → Option String
  | .num n => some (toString n ++ ".00")
  | .bool b => some (if b then "1.00" else "0.00")
  | _ => none

/-! Embedding of src/core/formatters.py. -/

/-- The fixed literal pattern OPENALEX_PATTERN removes. -/
def OPENALEX_PATTERN : String := "https://openalex.org/"

/-- The fixed literal pattern DOI_PATTERN removes. -/
def DOI_PATTERN : String := "https://doi.org/"

/-- Step one of clean_text_field: the regex sub mapping every character in
x00-x1f and x7f-x9f to a space. -/
def mapCtrl (c : Char) : Char :=
  if c.toNat ≤ 0x1f ∨ (0x7f ≤ c.toNat ∧ c.toNat ≤ 0x9f) then ' ' else c

/-- Step two of clean_text_field: the three replace calls for newline, carriage
return and tab (all already spaces after mapCtrl, kept for fidelity). -/
def mapNl (c : Char) : Char :=
  if c = '\n' ∨ c = '\r' ∨ c = '\t' then ' ' else c

/-- Step three of clean_text_field: the replace calls for the line and
paragraph separators U+2028 and U+2029. -/
def mapLs (c : Char) : Char :=
  if c = Char.ofNat 0x2028 ∨ c = Char.ofNat 0x2029 then ' ' else c

/-- The character-list pipeline of clean_text_field on a non-empty string:
substitute, collapse whitespace runs via split and single-space join, strip. -/
def cleanChars (l : List Char) : List Char :=
  pyStripChars (joinWith [' '] (pyWords (((l.map mapCtrl).map mapNl).map mapLs)))

/-- formatters.clean_text_field on a string argument; the leading falsy test
returns the empty string unchanged. -/
def clean_text_field (s : String) : String :=
  if s = "" then s else String.mk (cleanChars s.data)

/-- formatters.clean_text_field on an arbitrary value: non-strings and falsy
values are returned unchanged by the leading type and truthiness test. -/
def cleanTextFieldVal (v : JVal) : JVal :=
  if v.truthy then
    match v with
    | .str s => .str (clean_text_field s)
    | w => w
  else v

/-- Ordering of (token position, word) pairs used by sorted(zip(positions,
words)) in format_abstract_optimized: Python tuple comparison. -/
def pairLe (a b : Int × String) : Prop :=
  a.1 < b.1 ∨ (a.1 = b.1 ∧ strLeR a.2 b.2)

instance : DecidableRel pairLe := fun a b => by
  unfold pairLe
  infer_instance

/-- The body of format_abstract_optimized inside its try block. Position lists
that are not arrays of numbers are modelled as the caught failure (in Python a
non-numeric mix raises at the comparison inside sorted; an all-string position
list would sort without raising, a case no claim evaluates). The numpy branch
for more than 1000 tokens is modelled by the same stable sort. -/
def abstractCore (v : JVal) : Except String String :=
  match v with
  | .obj fs => do
    let pairs ← fs.foldlM (fun (acc : List (Int × String)) kv => do
      match kv.2 with
      | .arr ps => do
        let ns ← ps.mapM (fun p => match p with
          | .num n => Except.ok n
          | _ => Except.error "TypeError: non-numeric token position")
        Except.ok (acc ++ ns.map (fun n => (n, kv.1)))
      | _ => Except.error "TypeError: position list is not iterable") []
    if pairs.isEmpty then Except.ok ""
    else
      Except.ok (clean_text_field
        (String.mk (joinWith [' ']
          ((List.insertionSort pairLe pairs).map (fun p => p.2.data)))))
  | _ => Except.error "AttributeError: items"

/-- formatters.format_abstract_optimized: total, returns the error placeholder
string when the body raises. -/
def format_abstract_optimized (v : JVal) : String :=
  if !v.truthy then ""
  else
    match abstractCore v with
    | .ok s => s
    | .error _ => "[Abstract processing error]"

/-- Iteration protocol for the authorships argument: a falsy value makes the
formatter return the empty string before iterating; arrays iterate normally;
any truthy non-array raises once element attribute access happens (Python
strings and dicts would iterate over characters or keys, which then raise at
the .get call, and other scalars are not iterable). -/
def asObj : JVal → Except String Row
  | .obj fs => Except.ok fs
  | _ => Except.error "AttributeError: get"

def iterAuthorships (v : JVal) : Except String (Option (List Row)) :=
  if !v.truthy then Except.ok none
  else match v with
    | .arr xs => do
      let rows ← xs.mapM asObj
      Except.ok (some rows)
    | _ => Except.error "TypeError: not iterable"

/-- One authorship of format_authors_simple: the stripped display name with
the corresponding marker. -/
def authorsItem (a : Row) : Except String String :=
  match rowGetD a "author" (.obj []) with
  | .obj au =>
    match rowGetD au "display_name" (.str "Unknown") with
    | .str dn =>
      if (rowGetD a "is_corresponding" (.bool false)).truthy then
        Except.ok (pyStripStr dn ++ " (corresponding)")
      else Except.ok (pyStripStr dn)
    | _ => Except.error "AttributeError: strip"
  | _ => Except.error "AttributeError: get"

/-- formatters.format_authors_simple. -/
def format_authors_simple (v : JVal) : Except String String := do
  match ← iterAuthorships v with
  | none => Except.ok ""
  | some auths => do
    let names ← auths.mapM authorsItem
    Except.ok (String.mk (joinWith [' ', '|', ' '] (names.map String.data)))

/-- Inner loop of format_institutions over one authorship: thread the seen-id
set and the rendered list. An institution id must be a string to pass both the
set-membership test and the pattern removal; falsy ids are skipped before
either. Name, type and country render through str() inside the f-string. -/
def instStep (acc : List String × List String) (inst : JVal) :
    Except String (List String × List String) :=
  match inst with
  | .obj fs =>
    let idv := rowGetD fs "id" (.str "")
    if !idv.truthy then Except.ok acc
    else match idv with
      | .str s =>
        if acc.1.contains s then Except.ok acc
        else
          let nm := pyStr (rowGetD fs "display_name" (.str "Unknown"))
          let ty := pyStr (rowGetD fs "type" (.str "Unknown"))
          let cc := pyStr (rowGetD fs "country_code" (.str "Unknown"))
          let idc := removePat OPENALEX_PATTERN s
          Except.ok (acc.1 ++ [s], acc.2 ++ [nm ++ " ; " ++ ty ++ " ; " ++ cc ++ " (" ++ idc ++ ")"])
      | _ => Except.error "TypeError: unhashable or non-string id"
  | _ => Except.error "AttributeError: get"

/-- formatters.format_institutions. -/
def instAuth (acc : List String × List String) (a : Row) :
    Except String (List String × List String) :=
  match rowGetD a "institutions" (.arr []) with
  | .arr is => is.foldlM instStep acc
  | _ => Except.error "TypeError: institutions not a list"

def format_institutions (v : JVal) : Except String String := do
  match ← iterAuthorships v with
  | none => Except.ok ""
  | some auths => do
    let st ← auths.foldlM instAuth ([], [])
    Except.ok (String.mk (joinWith [' ', '|', ' '] (st.2.map String.data)))

/-- Membership add for the Python set of affiliation strings, modelled as an
insertion-ordered duplicate-free list (the set is only ever read through
sorted, so iteration order is irrelevant). -/
def insertNew (xs : List String) (x : String) : List String :=
  if xs.contains x then xs else xs ++ [x]

/-- formatters.format_raw_affiliation_strings. Unicode NFC normalisation is
modelled as the identity (no claim evaluates a non-NFC input). -/
def affilAdd (acc2 : List String) (x : JVal) : Except String (List String) :=
  if !x.truthy then Except.ok acc2
  else match x with
    | .str s =>
      if pyStripStr s = "" then Except.ok acc2
      else Except.ok (insertNew acc2 (clean_text_field (pyStripStr s)))
    | _ => Except.error "AttributeError: strip"

def affilAuth (acc : List String) (a : Row) : Except String (List String) :=
  match rowGetD a "raw_affiliation_strings" (.arr []) with
  | .arr rs => rs.foldlM affilAdd acc
  | _ => Except.error "TypeError: raw_affiliation_strings not a list"

def format_raw_affiliation_strings (v : JVal) : Except String String := do
  match ← iterAuthorships v with
  | none => Except.ok ""
  | some auths => do
    let affs ← auths.foldlM affilAuth []
    Except.ok (String.mk (joinWith [' ', '|', ' '] ((sortStr affs).map String.data)))

/-- Sort key access for format_counts_by_year: c.get("year", 0) must be an
integral value for Python sorted to compare the keys (booleans are integers in
Python); a non-integral year in a list of at least two entries raises at the
comparison, modelled as an error on any non-integral year. -/
def yearKey (c : Row) : Except String Int :=
  match rowGetD c "year" (.num 0) with
  | .num n => Except.ok n
  | .bool b => Except.ok (if b then 1 else 0)
  | _ => Except.error "TypeError: year not comparable"

/-- Descending comparison by year used by sorted(..., reverse=True). -/
def countsGe (a b : Row × Int) : Prop := b.2 ≤ a.2

instance : DecidableRel countsGe := fun a b => by
  unfold countsGe
  infer_instance

/-- One element of counts_by_year paired with its sort key. -/
def countKeyed (c : JVal) : Except String (Row × Int) :=
  match c with
  | .obj fs => do
    let k ← yearKey fs
    Except.ok (fs, k)
  | _ => Except.error "AttributeError: get"

/-- formatters.format_counts_by_year. -/
def format_counts_by_year (v : JVal) : Except String String :=
  if !v.truthy then Except.ok ""
  else match v with
    | .arr cs => do
      let rows ← cs.mapM countKeyed
      let sorted := List.insertionSort countsGe rows
      let items := sorted.map (fun ck =>
        pyStr (rowGetD ck.1 "cited_by_count" (.num 0)) ++ " (" ++
          pyStr (rowGetD ck.1 "year" (.str "Unknown")) ++ ")")
      Except.ok (String.mk (joinWith [' ', '|', ' '] (items.map String.data)))
    | _ => Except.error "TypeError: not iterable"

/-- One rendered topic of format_topic_and_score. -/
def topicItem (t : JVal) : Except String String :=
  match t with
  | .obj fs =>
    match fmt4 (rowGetD fs "score" (.num 0)) with
    | some sc => Except.ok (pyStr (rowGetD fs "display_name" (.str "Unknown")) ++ " ; " ++ sc)
    | none => Except.error "ValueError: format spec f on a non-number"
  | _ => Except.error "AttributeError: get"

/-- formatters.format_topic_and_score (the topics list formatter). -/
def format_topic_and_score (v : JVal) : Except String String :=
  if !v.truthy then Except.ok ""
  else match v with
    | .arr ts => do
      let items ← ts.mapM topicItem
      Except.ok (String.mk (joinWith [' ', '|', ' '] (items.map String.data)))
    | _ => Except.error "TypeError: not iterable"

/-- Grouping dict used by format_concepts: level value to rendered entries,
insertion ordered. Levels must be integral values to act as comparable sort
keys of sorted(keys()) (modelled as an error otherwise, as for years). -/
def conceptStep (acc : List (Int × List String)) (fs : Row) :
    Except String (List (Int × List String)) := do
  let lvl ← (match rowGetD fs "level" (.num 0) with
    | .num n => Except.ok n
    | .bool b => Except.ok (if b then (1 : Int) else 0)
    | _ => Except.error "TypeError: level not comparable")
  match fmt4 (rowGetD fs "score" (.num 0)) with
  | none => Except.error "ValueError: format spec f on a non-number"
  | some sc =>
    let item := pyStr (rowGetD fs "display_name" (.str "Unknown")) ++ " ; " ++ sc ++
      " (level " ++ toString lvl ++ ")"
    if acc.any (fun g => g.1 == lvl) then
      Except.ok (acc.map (fun g => if g.1 == lvl then (g.1, g.2 ++ [item]) else g))
    else Except.ok (acc ++ [(lvl, [item])])

def conceptsGroup (cs : List Row) : Except String (List (Int × List String)) :=
  cs.foldlM conceptStep []

/-- Ascending comparison on group levels used by sorted(keys()). -/
def levelLe (a b : Int × List String) : Prop := a.1 ≤ b.1

instance : DecidableRel levelLe := fun a b => by
  unfold levelLe
  infer_instance

/-- formatters.format_concepts. -/
def format_concepts (v : JVal) : Except String String :=
  if !v.truthy then Except.ok ""
  else match v with
    | .arr cs => do
      let rows ← cs.mapM asObj
      let groups ← conceptsGroup rows
      let items := (List.insertionSort levelLe groups).flatMap (fun g => g.2)
      Except.ok (String.mk (joinWith [' ', '|', ' '] (items.map String.data)))
    | _ => Except.error "TypeError: not iterable"

/-- One rendered goal of format_sdgs. -/
def sdgItem (t : JVal) : Except String String :=
  match t with
  | .obj fs =>
    match fmt2 (rowGetD fs "score" (.num 0)) with
    | some sc => Except.ok (pyStr (rowGetD fs "display_name" (.str "Unknown")) ++ " ; " ++ sc)
    | none => Except.error "ValueError: format spec f on a non-number"
  | _ => Except.error "AttributeError: get"

/-- formatters.format_sdgs. -/
def format_sdgs (v : JVal) : Except String String :=
  if !v.truthy then Except.ok ""
  else match v with
    | .arr ts => do
      let items ← ts.mapM sdgItem
      Except.ok (String.mk (joinWith [' ', '|', ' '] (items.map String.data)))
    | _ => Except.error "TypeError: not iterable"

/-- One rendered grant of format_grants. -/
def grantItem (g : JVal) : Except String String :=
  match g with
  | .obj fs =>
    let funder := rowGetD fs "funder_display_name" (.str "Unknown")
    let award := rowGetD fs "award_id" (.str "")
    if award.truthy then
      Except.ok (pyStr funder ++ " (" ++ pyStr award ++ ")")
    else match funder with
      | .str s => Except.ok s
      | _ => Except.error "TypeError: join on a non-string"
  | _ => Except.error "AttributeError: get"

/-- formatters.format_grants. When the award id is falsy the bare funder value
is appended to the list and must itself be a string for the final join. -/
def format_grants (v : JVal) : Except String String :=
  if !v.truthy then Except.ok ""
  else match v with
    | .arr gs => do
      let items ← gs.mapM grantItem
      Except.ok (String.mk (joinWith [',', ' '] (items.map String.data)))
    | _ => Except.error "TypeError: not iterable"

/-- Suffix test of the inner loop of extract_author_position: the lowercased
stored author id ends with the lowercased queried id. -/
def authIdMatches (idc : String) (a : Row) : Except String Bool := do
  let author := rowGetD a "author" (.obj [])
  match author with
  | .obj au =>
    match rowGetD au "id" (.str "") with
    | .str aid => Except.ok (strEndsWith (pyLower aid) idc)
    | _ => Except.error "AttributeError: lower"
  | _ => Except.error "AttributeError: get"

/-- Position classification by match index in extract_author_position. -/
def positionName (i total : Nat) : String :=
  if i = 0 then "First" else if i = total - 1 then "Last" else "Middle"

/-- The enumerated scan of extract_author_position: first matching authorship
wins; i is the current index and total the full list length. -/
def scanPositions (idc : String) (total : Nat) : Nat → List Row → Except String String
  | _, [] => Except.ok "Not found"
  | i, a :: rest => do
    if ← authIdMatches idc a then Except.ok (positionName i total)
    else scanPositions idc total (i + 1) rest

/-- formatters.extract_author_position. A missing authorships key defaults to
the empty list; an empty string or empty dict iterates zero times; any other
non-list value raises when iterated or when its elements are accessed. -/
def extract_author_position (pub : Row) (author_id : String) : Except String String :=
  let idc := pyLower author_id
  match rowGetD pub "authorships" (.arr []) with
  | .arr xs => do
    let rows ← xs.mapM asObj
    scanPositions idc rows.length 0 rows
  | .str "" => Except.ok "Not found"
  | .obj [] => Except.ok "Not found"
  | _ => Except.error "TypeError: not iterable"

/-! Embedding of src/core/processors.py. -/

/-- Descent loop of get_value_from_nested_dict: a None value stops with None,
a dict looks the key up with a None default, and the AttributeError of any
other value is caught and turned into None. -/
def nestedGo : JVal → List String → JVal
  | v, [] => v
  | .null, _ :: _ => .null
  | .obj fs, k :: ks => nestedGo (rowGetD fs k .null) ks
  | _, _ :: _ => .null

/-- processors.get_value_from_nested_dict: split the path on dots and descend;
falsy data or an empty path give None. -/
def get_value_from_nested_dict (data : Row) (key_path : String) : JVal :=
  if data.isEmpty ∨ key_path = "" then .null
  else nestedGo (.obj data) ((splitOnChar '.' key_path.data).map String.mk)

/-- Iteration of the id lists of corresponding_author_ids and
corresponding_institution_ids: every element passes through the pattern
removal and must be a string. A string iterates over its one-character
substrings and a dict over its string keys (both join fine in Python); any
other value raises. -/
def asStrItem : JVal → Except String String
  | .str s => Except.ok s
  | _ => Except.error "TypeError: expected string or bytes-like object"

def iterIdStrings : JVal → Except String (List String)
  | .arr xs => xs.mapM asStrItem
  | .str s => Except.ok (s.data.map (fun c => String.mk [c]))
  | .obj fs => Except.ok (fs.map (fun kv => kv.1))
  | _ => Except.error "TypeError: not iterable"

/-- One branch chain iteration of the field loop of
processors.process_publications_batch: compute the value stored for one
selected field (before the final None-to-empty-string coercion). The branch
order mirrors the source if/elif chain. -/
def projectField (pub : Row) (field : String) : Except String JVal :=
  if field = "id" then
    match rowGetD pub "id" (.str "") with
    | .str s => Except.ok (.str (removePat OPENALEX_PATTERN s))
    | _ => Except.error "TypeError: expected string or bytes-like object"
  else if field = "doi" then
    if (rowGetD pub "doi" (.str "")).truthy then
      match rowGetD pub "doi" (.str "") with
      | .str s => Except.ok (.str (removePat DOI_PATTERN s))
      | _ => Except.error "TypeError: expected string or bytes-like object"
    else Except.ok (.str "")
  else if field = "display_name" then
    Except.ok (cleanTextFieldVal (rowGetD pub "display_name" (.str "")))
  else if field = "abstract_inverted_index" then
    Except.ok (.str (format_abstract_optimized (rowGetD pub "abstract_inverted_index" (.obj []))))
  else if field = "authorships" then do
    Except.ok (.str (← format_authors_simple (rowGetD pub "authorships" (.arr []))))
  else if field = "institutions" then do
    Except.ok (.str (← format_institutions (rowGetD pub "authorships" (.arr []))))
  else if field = "raw_affiliation_strings" then do
    Except.ok (.str (← format_raw_affiliation_strings (rowGetD pub "authorships" (.arr []))))
  else if field = "primary_topic_and_score" then
    if (get_value_from_nested_dict pub "primary_topic.display_name").truthy
        ∧ get_value_from_nested_dict pub "primary_topic.score" ≠ .null then
      match fmt4 (get_value_from_nested_dict pub "primary_topic.score") with
      | some f => Except.ok (.str
          (pyStr (get_value_from_nested_dict pub "primary_topic.display_name") ++ " ; " ++ f))
      | none => Except.error "ValueError: format spec f on a non-number"
    else Except.ok (.str "")
  else if field.startsWith "primary_location.source" then
    if field = "primary_location.source.issn" then do
      let ss ← iterIdStrings (if (get_value_from_nested_dict pub field).truthy
        then get_value_from_nested_dict pub field else .arr [])
      Except.ok (.str (String.mk (joinWith [','] (ss.map String.data))))
    else
      Except.ok (match get_value_from_nested_dict pub field with
        | .str s => .str (clean_text_field s)
        | w => w)
  else if field = "corresponding_author_ids" then do
    let ss ← iterIdStrings (rowGetD pub "corresponding_author_ids" (.arr []))
    Except.ok (.str (String.mk (joinWith [' ', '|', ' ']
      ((ss.map (removePat OPENALEX_PATTERN)).map String.data))))
  else if field = "corresponding_institution_ids" then do
    let ss ← iterIdStrings (rowGetD pub "corresponding_institution_ids" (.arr []))
    Except.ok (.str (String.mk (joinWith [' ', '|', ' ']
      ((ss.map (removePat OPENALEX_PATTERN)).map String.data))))
  else if field = "counts_by_year" then do
    Except.ok (.str (← format_counts_by_year (rowGetD pub "counts_by_year" (.arr []))))
  else if field = "topics" then do
    Except.ok (.str (← format_topic_and_score (rowGetD pub "topics" (.arr []))))
  else if field = "concepts" then do
    Except.ok (.str (← format_concepts (rowGetD pub "concepts" (.arr []))))
  else if field = "sustainable_development_goals" then do
    Except.ok (.str (← format_sdgs (rowGetD pub "sustainable_development_goals" (.arr []))))
  else if field = "grants" then do
    Except.ok (.str (← format_grants (rowGetD pub "grants" (.arr []))))
  else if field = "datasets" then do
    let ss ← iterIdStrings (rowGetD pub "datasets" (.arr []))
    Except.ok (.str (String.mk (joinWith [',', ' '] (ss.map String.data))))
  else
    Except.ok (match get_value_from_nested_dict pub field with
      | .str s => .str (clean_text_field s)
      | .null => .null
      | w => .str (pyStr w))

/-- One iteration of the selected-field loop: compute the value and store it
under the field name, coercing a None value to the empty string. -/
def projectStep (pub : Row) (r : Row) (field : String) : Except String Row := do
  let v ← projectField pub field
  Except.ok (rowSet r field (match v with
    | .null => .str ""
    | w => w))

/-- The per-publication body of processors.process_publications_batch: stamp
the three provenance fields for the triggering entity, then store every
selected field, coercing a None value to the empty string. -/
def processOnePub (pub : Row) (entity_id entity_name entity_type : String)
    (selected_metadata : List String) : Except String Row := do
  let base ←
    if entity_type = "institution" then
      Except.ok [("institutions_extracted", JVal.str entity_name),
        ("authors_extracted", JVal.str ""),
        ("position_extracted", JVal.str "")]
    else do
      let pos ← extract_author_position pub entity_id
      Except.ok [("institutions_extracted", JVal.str ""),
        ("authors_extracted", JVal.str entity_name),
        ("position_extracted", JVal.str pos)]
  selected_metadata.foldlM (projectStep pub) base

/-- processors.process_publications_batch: process each raw record in order; a
raised exception propagates and aborts the whole batch. -/
def process_publications_batch (results : List Row) (entity_id entity_name entity_type : String)
    (selected_metadata : List String) : Except String (List Row) :=
  results.mapM (fun pub => processOnePub pub entity_id entity_name entity_type selected_metadata)

/-- Python expression (pub.get(k) or ""): a missing key or falsy value becomes
the empty string, a truthy value passes through. -/
def pyOrEmptyStr (v : Option JVal) : JVal :=
  match v with
  | none => .str ""
  | some w => if w.truthy then w else .str ""

/-- Python v.strip() where v came from pyOrEmptyStr: raises unless v is a
string. -/
def pyStripVal (v : JVal) : Except String String :=
  match v with
  | .str s => Except.ok (pyStripStr s)
  | _ => Except.error "AttributeError: strip"

/-- Hashability guard for values used as dict keys in the two deduplication
stages: Python lists and dicts are unhashable. -/
def hashableKey (v : JVal) : Except String JVal :=
  match v with
  | .arr _ => Except.error "TypeError: unhashable type"
  | .obj _ => Except.error "TypeError: unhashable type"
  | w => Except.ok w

/-- The merge state kept per work id by
processors.deduplicate_publications_optimized: the first row seen, the set of
institution labels (insertion-ordered, duplicate-free; only read through
sorted) and the author label to position dict (insertion-ordered). -/
structure DedupEntry where
  data : Row
  insts : List String
  apos : List (String × String)
deriving Repr

/-- Association-list lookup for the author position dict. -/
def alistGet (m : List (String × String)) (k : String) : Option String :=
  (m.find? (fun p => p.1 == k)).map (fun p => p.2)

/-- Association-list write with Python dict semantics. -/
def alistSet (m : List (String × String)) (k v : String) : List (String × String) :=
  if m.any (fun p => p.1 == k) then m.map (fun p => if p.1 == k then (k, v) else p)
  else m ++ [(k, v)]

/-- Per-row update of one merge entry in
deduplicate_publications_optimized: add the stripped non-empty institution
label to the set, and record the stripped position under the stripped author
label unless a non-empty position is already recorded. -/
def dedupUpdate (e : DedupEntry) (pub : Row) : Except String DedupEntry := do
  let inst ← pyStripVal (pyOrEmptyStr (rowGet pub "institutions_extracted"))
  let albl ← pyStripVal (pyOrEmptyStr (rowGet pub "authors_extracted"))
  let pos ← pyStripVal (pyOrEmptyStr (rowGet pub "position_extracted"))
  let insts := if inst ≠ "" then insertNew e.insts inst else e.insts
  let apos :=
    if albl ≠ "" then
      match alistGet e.apos albl with
      | none => alistSet e.apos albl pos
      | some p => if p = "" then alistSet e.apos albl pos else e.apos
    else e.apos
  Except.ok ⟨e.data, insts, apos⟩

/-- Apply dedupUpdate to the entry stored under the given id. -/
def seenUpdate (seen : List (JVal × DedupEntry)) (pid : JVal) (pub : Row) :
    Except String (List (JVal × DedupEntry)) :=
  seen.mapM (fun kv =>
    if kv.1 = pid then do
      let e ← dedupUpdate kv.2 pub
      Except.ok (kv.1, e)
    else Except.ok kv)

/-- One loop iteration of deduplicate_publications_optimized: skip rows with a
falsy id, create the entry on first sight of an id, then merge the row into
its entry. -/
def dedupStep (seen : List (JVal × DedupEntry)) (pub : Row) :
    Except String (List (JVal × DedupEntry)) := do
  if !(rowGetD pub "id" (.str "")).truthy then Except.ok seen
  else do
    let pid ← hashableKey (rowGetD pub "id" (.str ""))
    let seen1 :=
      if seen.any (fun kv => kv.1 == pid) then seen
      else seen ++ [(pid, ⟨pub, [], []⟩)]
    seenUpdate seen1 pid pub

/-- Pipe join with the three-character separator used for the merged
provenance columns. -/
def pipeJoin (xs : List String) : String :=
  String.mk (joinWith [' ', '|', ' '] (xs.map String.data))

/-- Final row construction of deduplicate_publications_optimized for one merge
entry: copy the first row seen and overwrite the three provenance columns with
the sorted institution list, the sorted author labels, and the positions
listed in the same sorted author order. -/
def dedupBuildRow (e : DedupEntry) : Row :=
  let inst_list := sortStr (e.insts.filter (fun s => s ≠ ""))
  let author_labels := sortStr (e.apos.map (fun p => p.1))
  let row := rowSet e.data "institutions_extracted" (.str (pipeJoin inst_list))
  let row := rowSet row "authors_extracted" (.str (pipeJoin author_labels))
  rowSet row "position_extracted"
    (.str (pipeJoin (author_labels.map (fun a => (alistGet e.apos a).getD ""))))

/-- processors.deduplicate_publications_optimized. -/
def deduplicate_publications_optimized (all_publications : List Row) :
    Except String (List Row) := do
  let seen ← all_publications.foldlM dedupStep []
  Except.ok (seen.map (fun kv => dedupBuildRow kv.2))

/-- The within-entity duplicate removal at the end of
processors.fetch_publications_parallel: first occurrence of each truthy id
wins, rows with a falsy id are dropped. -/
def withinEntityDedupGo : List Row → List (JVal × Row) → Except String (List Row)
  | [], acc => Except.ok (acc.map (fun kv => kv.2))
  | pub :: rest, acc => do
    if !(rowGetD pub "id" (.str "")).truthy then withinEntityDedupGo rest acc
    else do
      let pid ← hashableKey (rowGetD pub "id" (.str ""))
      if acc.any (fun kv => kv.1 == pid) then withinEntityDedupGo rest acc
      else withinEntityDedupGo rest (acc ++ [(pid, pub)])

/-- Entry point of the within-entity duplicate removal. -/
def within_entity_dedup (all_publications : List Row) : Except String (List Row) :=
  withinEntityDedupGo all_publications []

/-! Embedding of the paging of src/core/processors.py (fetch_single_doc_type)
and of src/core/api_client.py (rate_limited_get). The HTTP layer is abstracted
by a server oracle from the page parameter (None on the first request, which
carries no page key) to the parsed reply of api_client.fetch_works_page. -/

/-- The reply of api_client.fetch_works_page: the results list, the total
count from the response meta, and the success flag (false on a non-200 reply,
an exhausted retry, or an undecodable body). -/
structure PageResp where
  results : List Row
  total : Nat
  success : Bool

/-- The document-type filter string built at the top of fetch_single_doc_type
(a falsy doc_type leaves the base filter unchanged). -/
def docTypeFilter (base : String) : Option String → String
  | some d => if d = "" then base else base ++ ",type:" ++ d
  | none => base

/-- The page loop of fetch_single_doc_type over pages 2..total_pages: a failed
page is skipped but the loop keeps going; a processing exception propagates.
The returned trace lists the page parameter of every request issued. -/
def fetchPagesLoop (server : Option Nat → PageResp)
    (entity_id entity_name entity_type : String) (selected_metadata : List String) :
    List Nat → List Row → List (Option Nat) → Except String (List Row) × List (Option Nat)
  | [], acc, trace => (Except.ok acc, trace)
  | p :: rest, acc, trace =>
    if (server (some p)).success then
      match process_publications_batch (server (some p)).results entity_id entity_name
          entity_type selected_metadata with
      | .error e => (.error e, trace ++ [some p])
      | .ok rows =>
        fetchPagesLoop server entity_id entity_name entity_type selected_metadata
          rest (acc ++ rows) (trace ++ [some p])
    else
      fetchPagesLoop server entity_id entity_name entity_type selected_metadata
        rest acc (trace ++ [some p])

/-- The number of pages fetch_single_doc_type derives from the first reply:
ceiling of total over the fixed per_page of 50, capped at 200. -/
def totalPages (total : Nat) : Nat := min ((total + 50 - 1) / 50) 200

/-- processors.fetch_single_doc_type: one request without a page parameter,
then pages 2..totalPages unconditionally; a failed first page returns the
empty list at once. Also returns the trace of issued page parameters. -/
def fetch_single_doc_type (server : Option Nat → PageResp)
    (entity_id entity_name entity_type : String) (selected_metadata : List String) :
    Except String (List Row) × List (Option Nat) :=
  let first := server none
  let trace := [(none : Option Nat)]
  if !first.success then (Except.ok [], trace)
  else
    match process_publications_batch first.results entity_id entity_name entity_type
        selected_metadata with
    | .error e => (.error e, trace)
    | .ok rows =>
      fetchPagesLoop server entity_id entity_name entity_type selected_metadata
        (List.range' 2 (totalPages first.total - 1)) rows trace

/-! Embedding of api_client.rate_limited_get. One HTTP attempt is abstracted
by an oracle from the attempt index to its outcome; the jitter factor
(0.5 + 0.5 * random()) of each 429 backoff is a second oracle. Sleeps are
recorded as the list of wait amounts. -/

/-- Outcome of one session.get attempt: a raised requests exception, or a
response with a status code. -/
inductive Attempt where
  | exc
  | status (code : Nat)

/-- Result of rate_limited_get: the returned response status (none models the
Python None returned after exhausting retries on exceptions), the number of
attempts issued, and the backoff waits slept. -/
structure GetResult where
  response : Option Nat
  attempts : Nat
  waits : List ℚ
deriving Repr, DecidableEq

/-- The while loop of rate_limited_get. retries counts failures so far,
backoff is the current nominal backoff, i the next attempt index. -/
def rlgLoop (oracle : Nat → Attempt) (jitter : Nat → ℚ) (max_retries : Nat)
    (retries : Nat) (backoff : ℚ) (i : Nat) (waits : List ℚ) : GetResult :=
  if h : retries ≤ max_retries then
    match oracle i with
    | .exc =>
      let r := retries + 1
      if r ≤ max_retries then
        rlgLoop oracle jitter max_retries r (backoff * 2) (i + 1) (waits ++ [backoff])
      else
        rlgLoop oracle jitter max_retries r backoff (i + 1) waits
    | .status code =>
      if code = 200 then ⟨some 200, i + 1, waits⟩
      else if code = 429 then
        let r := retries + 1
        if r > max_retries then ⟨some 429, i + 1, waits⟩
        else
          rlgLoop oracle jitter max_retries r (backoff * 2) (i + 1)
            (waits ++ [backoff * jitter i])
      else ⟨some code, i + 1, waits⟩
  else ⟨none, i, waits⟩
termination_by max_retries + 1 - retries
decreasing_by
  all_goals omega

/-- api_client.rate_limited_get with its default retry bound of 3 and initial
backoff RETRY_AFTER_429 = 2.0. -/
def rate_limited_get (oracle : Nat → Attempt) (jitter : Nat → ℚ)
    (max_retries : Nat := 3) : GetResult :=
  rlgLoop oracle jitter max_retries 0 2 0 []

/-! Embedding of the candidate discovery of src/ui/authors.py. The input is
the parsed results list of api_client.search_author_by_name (raw /authors
records); the session plumbing is outside the model. -/

/-- A candidate row as built by authors._candidate_from_authors_result. The
display name is stored as delivered (the source stores the raw value). -/
structure Candidate where
  id : String
  display_name : JVal
  orcid : String
  works_count : Int
  affiliations_2025 : List String
  last_known_insts : List String
  topics : List JVal
deriving Repr

/-- authors._fmt_inst: render one institution as "Name, CC", upper-casing the
country code and trimming a dangling comma. -/
def fmtInst (display_name cc : JVal) : Except String String := do
  let dn := pyOrEmptyStr (some display_name)
  let ccs ← (match pyOrEmptyStr (some cc) with
    | .str s => Except.ok (pyUpper s)
    | _ => Except.error "AttributeError: upper")
  let raw := pyStr dn ++ ", " ++ ccs
  Except.ok (String.mk (((pyStripChars raw.data).dropWhile (fun c => c = ',')).reverse.dropWhile
    (fun c => c = ',') |>.reverse))

/-- The works_count taken by _candidate_from_authors_result:
(match.get("works_count", 0) or 0), an integral value (a truthy non-integral
count would raise later at the sort comparison and is flagged here). -/
def worksCountOf (m : Row) : Except String Int :=
  match pyOrEmptyStr (some (rowGetD m "works_count" (.num 0))) with
  | .str _ => Except.ok 0
  | .num n => Except.ok n
  | .bool b => Except.ok (if b then 1 else 0)
  | .null => Except.ok 0
  | _ => Except.error "TypeError: works_count not comparable"

/-- authors._candidate_from_authors_result. -/
def candidateFromResult (m : Row) : Except String Candidate := do
  let openalex_id ← (match pyOrEmptyStr (rowGet m "id") with
    | .str s => Except.ok (removePat "https://openalex.org/" s)
    | _ => Except.error "AttributeError: replace")
  let display_name := pyOrEmptyStr (rowGet m "display_name")
  let orcid ← (match pyOrEmptyStr (rowGet m "orcid") with
    | .str s => Except.ok (removePat "https://orcid.org/" s)
    | _ => Except.error "AttributeError: replace")
  let works_count ← worksCountOf m
  let affs2025 ← (match pyOrEmptyStr (some (rowGetD m "affiliations" .null)) with
    | .arr affs => affs.foldlM (fun (acc : List String) aff =>
        match aff with
        | .obj fs =>
          (match pyOrEmptyStr (some (rowGetD fs "years" .null)) with
          | .arr ys =>
            if ys.contains (.num 2025) then do
              match pyOrEmptyStr (some (rowGetD fs "institution" .null)) with
              | .obj inst => do
                let r ← fmtInst (rowGetD inst "display_name" (.str ""))
                  (rowGetD inst "country_code" (.str ""))
                Except.ok (acc ++ [r])
              | .str "" => do
                let r ← fmtInst (.str "") (.str "")
                Except.ok (acc ++ [r])
              | _ => Except.error "AttributeError: get"
            else Except.ok acc
          | .str "" => Except.ok acc
          | _ => Except.error "TypeError: argument of type is not iterable")
        | _ => Except.ok acc) []
    | _ => Except.ok [])
  let lki ← (match pyOrEmptyStr (some (rowGetD m "last_known_institutions" .null)) with
    | .arr is => is.foldlM (fun (acc : List String) inst =>
        match inst with
        | .obj fs => do
          let r ← fmtInst (rowGetD fs "display_name" (.str ""))
            (rowGetD fs "country_code" (.str ""))
          Except.ok (acc ++ [r])
        | _ => Except.ok acc) []
    | _ => Except.ok [])
  let topics ← (match rowGet m "topics" with
    | some (.arr ts) => (ts.take 5).mapM (fun t => match t with
        | .obj fs => Except.ok (rowGetD fs "display_name" (.str ""))
        | _ => Except.error "AttributeError: get")
    | _ => Except.ok [])
  Except.ok ⟨openalex_id, display_name, orcid, works_count, affs2025, lki, topics⟩

/-- The candidate building loop inside the try of
authors._fetch_candidates_for_one: candidates appended so far survive an
exception raised further down the list (the except clause swallows it). -/
def buildCandidates : List Row → List Candidate
  | [] => []
  | m :: rest =>
    match candidateFromResult m with
    | .ok c => c :: buildCandidates rest
    | .error _ => []

/-- The descending works_count comparison of candidates.sort(key=...,
reverse=True). -/
def candGe (a b : Candidate) : Prop := b.works_count ≤ a.works_count

instance : DecidableRel candGe := fun a b => by
  unfold candGe
  infer_instance

/-- authors._fetch_candidates_for_one: keep the top 20 search results, build
candidate rows, then sort best-first by works_count (Python sort is stable, as
is insertion sort). -/
def fetch_candidates_for_one (results : List Row) : List Candidate :=
  List.insertionSort candGe (buildCandidates (results.take 20))

/-! Lemmas on the Python string primitives, leading to the idempotence of
clean_text_field. -/

/-- The composite of the three substitution maps of clean_text_field. -/
def mapAll (c : Char) : Char := mapLs (mapNl (mapCtrl c))

theorem cleanChars_eq_mapAll (l : List Char) :
    cleanChars l = pyStripChars (joinWith [' '] (pyWords (l.map mapAll))) := by
  unfold cleanChars mapAll
  rw [List.map_map, List.map_map]
  rfl

theorem mapAll_space_or_self (c : Char) : mapAll c = ' ' ∨ mapAll c = c := by
  unfold mapAll mapCtrl mapNl mapLs
  by_cases h1 : c.toNat ≤ 0x1f ∨ (0x7f ≤ c.toNat ∧ c.toNat ≤ 0x9f)
  · left
    simp [h1]
  · by_cases h2 : c = '\n' ∨ c = '\r' ∨ c = '\t'
    · left
      simp [h1, h2]
    · by_cases h3 : c = Char.ofNat 0x2028 ∨ c = Char.ofNat 0x2029
      · left
        simp [h1, h2, h3]
      · right
        simp [h1, h2, h3]

theorem mapAll_self_of_ne_space {c : Char} (h : mapAll c ≠ ' ') : mapAll c = c := by
  rcases mapAll_space_or_self c with hs | hs
  · exact absurd hs h
  · exact hs

theorem mapAll_space : mapAll ' ' = ' ' := by decide

theorem mapAll_fix {c : Char} (h : mapAll c = c) : mapAll (mapAll c) = mapAll c := by
  rw [h, h]

theorem mapAll_idem (c : Char) : mapAll (mapAll c) = mapAll c := by
  rcases mapAll_space_or_self c with hs | hs
  · rw [hs, mapAll_space]
  · rw [hs, hs]

theorem takeWhile_subset {α : Type} (p : α → Bool) :
    ∀ l : List α, ∀ x ∈ l.takeWhile p, x ∈ l := by
  intro l
  induction l with
  | nil => simp [List.takeWhile]
  | cons a l ih =>
    intro x hx
    simp only [List.takeWhile] at hx
    rcases hpa : p a with _ | _ <;> rw [hpa] at hx
    · simp at hx
    · rcases List.mem_cons.mp hx with h | h
      · simp [h]
      · exact List.mem_cons_of_mem a (ih x h)

theorem dropWhile_subset {α : Type} (p : α → Bool) :
    ∀ l : List α, ∀ x ∈ l.dropWhile p, x ∈ l := by
  intro l
  induction l with
  | nil => simp [List.dropWhile]
  | cons a l ih =>
    intro x hx
    simp only [List.dropWhile] at hx
    rcases hpa : p a with _ | _ <;> rw [hpa] at hx
    · rcases List.mem_cons.mp hx with h | h
      · simp [h]
      · exact List.mem_cons_of_mem a h
    · exact List.mem_cons_of_mem a (ih x hx)

/-- Every word produced by pyWords is non-empty and whitespace-free. -/
theorem pyWords_sound :
    ∀ l : List Char, ∀ w ∈ pyWords l, w ≠ [] ∧ ∀ c ∈ w, pyIsSpace c = false := by
  intro l
  induction l using pyWords.induct with
  | case1 => simp [pyWords]
  | case2 c cs hsp ih =>
    intro w hw
    rw [pyWords, if_pos hsp] at hw
    exact ih w hw
  | case3 c cs hsp ih =>
    intro w hw
    rw [pyWords, if_neg hsp] at hw
    rcases List.mem_cons.mp hw with h | h
    · subst h
      refine ⟨by simp, ?_⟩
      intro d hd
      rcases List.mem_cons.mp hd with h | h
      · subst h
        simpa using hsp
      · have := List.mem_takeWhile_imp h
        simpa using this
    · exact ih w h

/-- Every character of a word of pyWords occurs in the input. -/
theorem pyWords_mem :
    ∀ l : List Char, ∀ w ∈ pyWords l, ∀ c ∈ w, c ∈ l := by
  intro l
  induction l using pyWords.induct with
  | case1 => simp [pyWords]
  | case2 c cs hsp ih =>
    intro w hw d hd
    rw [pyWords, if_pos hsp] at hw
    exact List.mem_cons_of_mem c (ih w hw d hd)
  | case3 c cs hsp ih =>
    intro w hw d hd
    rw [pyWords, if_neg hsp] at hw
    rcases List.mem_cons.mp hw with h | h
    · subst h
      rcases List.mem_cons.mp hd with h | h
      · simp [h]
      · exact List.mem_cons_of_mem c (takeWhile_subset _ cs d h)
    · exact List.mem_cons_of_mem c
        (dropWhile_subset (fun d => !pyIsSpace d) cs d (ih w h d hd))

theorem takeWhile_append_all {α : Type} {p : α → Bool} :
    ∀ {a : List α}, (∀ x ∈ a, p x = true) → ∀ b, (a ++ b).takeWhile p = a ++ b.takeWhile p := by
  intro a
  induction a with
  | nil => simp
  | cons x xs ih =>
    intro h b
    have hx : p x = true := h x (by simp)
    simp only [List.cons_append, List.takeWhile_cons, hx, if_true, List.cons.injEq, true_and]
    exact ih (fun y hy => h y (List.mem_cons_of_mem x hy)) b

theorem dropWhile_append_all {α : Type} {p : α → Bool} :
    ∀ {a : List α}, (∀ x ∈ a, p x = true) → ∀ b, (a ++ b).dropWhile p = b.dropWhile p := by
  intro a
  induction a with
  | nil => simp
  | cons x xs ih =>
    intro h b
    have hx : p x = true := h x (by simp)
    simp only [List.cons_append, List.dropWhile_cons, hx, if_true]
    exact ih (fun y hy => h y (List.mem_cons_of_mem x hy)) b

theorem takeWhile_all {α : Type} {p : α → Bool} {a : List α} (h : ∀ x ∈ a, p x = true) :
    a.takeWhile p = a := by
  have := takeWhile_append_all h ([] : List α)
  simpa using this

theorem dropWhile_all {α : Type} {p : α → Bool} {a : List α} (h : ∀ x ∈ a, p x = true) :
    a.dropWhile p = [] := by
  have := dropWhile_append_all h ([] : List α)
  simpa using this

/-- A whitespace-free non-empty word decomposition is recovered exactly by
pyWords from its single-space join. -/
theorem pyWords_joinWith :
    ∀ ws : List (List Char),
      (∀ w ∈ ws, w ≠ [] ∧ ∀ c ∈ w, pyIsSpace c = false) →
      pyWords (joinWith [' '] ws) = ws := by
  intro ws
  induction ws with
  | nil => simp [joinWith, pyWords]
  | cons w ws ih =>
    intro h
    have hw := h w (by simp)
    have hws : ∀ v ∈ ws, v ≠ [] ∧ ∀ c ∈ v, pyIsSpace c = false :=
      fun v hv => h v (List.mem_cons_of_mem w hv)
    rcases hw with ⟨hne, hfree⟩
    cases ws with
    | nil =>
      cases w with
      | nil => exact absurd rfl hne
      | cons c cs =>
        have hc : pyIsSpace c = false := hfree c (by simp)
        have hcs : ∀ x ∈ cs, (fun d => !pyIsSpace d) x = true := by
          intro x hx
          simp [hfree x (List.mem_cons_of_mem c hx)]
        rw [joinWith, pyWords, if_neg (by simp [hc]), takeWhile_all hcs, dropWhile_all hcs]
        simp [pyWords]
    | cons w2 ws2 =>
      cases w with
      | nil => exact absurd rfl hne
      | cons c cs =>
        have hc : pyIsSpace c = false := hfree c (by simp)
        have hcs : ∀ x ∈ cs, (fun d => !pyIsSpace d) x = true := by
          intro x hx
          simp [hfree x (List.mem_cons_of_mem c hx)]
        have hsp : pyIsSpace ' ' = true := by decide
        have hjoin : joinWith [' '] ((c :: cs) :: w2 :: ws2) =
            c :: (cs ++ ' ' :: joinWith [' '] (w2 :: ws2)) := by
          simp only [joinWith]
          simp
        have h1 : (cs ++ ' ' :: joinWith [' '] (w2 :: ws2)).takeWhile
            (fun d => !pyIsSpace d) = cs := by
          rw [takeWhile_append_all hcs]
          simp [hsp]
        have h2 : (cs ++ ' ' :: joinWith [' '] (w2 :: ws2)).dropWhile
            (fun d => !pyIsSpace d) = ' ' :: joinWith [' '] (w2 :: ws2) := by
          rw [dropWhile_append_all hcs]
          simp [hsp]
        rw [hjoin, pyWords, if_neg (by simp [hc]), h1, h2, pyWords, if_pos hsp, ih hws]

/-- A character of a single-space join is the space or a character of one of
the words. -/
theorem joinWith_mem :
    ∀ ws : List (List Char), ∀ c ∈ joinWith [' '] ws, c = ' ' ∨ ∃ w ∈ ws, c ∈ w := by
  intro ws
  induction ws with
  | nil => simp [joinWith]
  | cons w ws ih =>
    intro c hc
    cases ws with
    | nil =>
      right
      exact ⟨w, by simp, by simpa [joinWith] using hc⟩
    | cons w2 ws2 =>
      have : joinWith [' '] (w :: w2 :: ws2) = w ++ [' '] ++ joinWith [' '] (w2 :: ws2) := by
        simp only [joinWith]
      rw [this] at hc
      rcases List.mem_append.mp hc with h | h
      · rcases List.mem_append.mp h with h | h
        · exact Or.inr ⟨w, by simp, h⟩
        · exact Or.inl (by simpa using h)
      · rcases ih c h with h | ⟨v, hv, hcv⟩
        · exact Or.inl h
        · exact Or.inr ⟨v, List.mem_cons_of_mem w hv, hcv⟩

/-- The reverse of a single-space join of non-empty whitespace-free words
starts with a non-whitespace character. -/
theorem joinWith_reverse_head :
    ∀ ws : List (List Char),
      (∀ w ∈ ws, w ≠ [] ∧ ∀ c ∈ w, pyIsSpace c = false) → ws ≠ [] →
      ∃ c rest, (joinWith [' '] ws).reverse = c :: rest ∧ pyIsSpace c = false := by
  intro ws
  induction ws with
  | nil => intro _ h; exact absurd rfl h
  | cons w ws ih =>
    intro h _
    cases ws with
    | nil =>
      rcases h w (by simp) with ⟨hne, hfree⟩
      have : joinWith [' '] [w] = w := by simp [joinWith]
      rw [this]
      cases hr : w.reverse with
      | nil => exact absurd (by simpa using hr) hne
      | cons c rest =>
        refine ⟨c, rest, rfl, ?_⟩
        have hcw : c ∈ w := by
          have : c ∈ w.reverse := by simp [hr]
          simpa using this
        exact hfree c hcw
    | cons w2 ws2 =>
      have hws : ∀ v ∈ w2 :: ws2, v ≠ [] ∧ ∀ c ∈ v, pyIsSpace c = false :=
        fun v hv => h v (List.mem_cons_of_mem w hv)
      rcases ih hws (by simp) with ⟨c, rest, hrev, hcfree⟩
      have hj : joinWith [' '] (w :: w2 :: ws2) = w ++ [' '] ++ joinWith [' '] (w2 :: ws2) := by
        simp only [joinWith]
      refine ⟨c, rest ++ [' '] ++ w.reverse, ?_, hcfree⟩
      rw [hj, List.reverse_append, List.reverse_append, hrev]
      simp

/-- pyStripChars is the identity on a single-space join of non-empty
whitespace-free words. -/
theorem pyStripChars_joinWith
    (ws : List (List Char))
    (h : ∀ w ∈ ws, w ≠ [] ∧ ∀ c ∈ w, pyIsSpace c = false) :
    pyStripChars (joinWith [' '] ws) = joinWith [' '] ws := by
  cases hws : ws with
  | nil => simp [joinWith, pyStripChars]
  | cons w ws2 =>
    subst hws
    rcases h w (by simp) with ⟨hne, hfree⟩
    have hdrop1 : (joinWith [' '] (w :: ws2)).dropWhile pyIsSpace = joinWith [' '] (w :: ws2) := by
      cases hw : w with
      | nil => exact absurd hw hne
      | cons c cs =>
        have hc : pyIsSpace c = false := by
          apply hfree
          simp [hw]
        have hhead : ∃ t, joinWith [' '] (w :: ws2) = c :: t := by
          cases ws2 with
          | nil => exact ⟨cs, by simp [joinWith, hw]⟩
          | cons w2 ws3 =>
            refine ⟨cs ++ [' '] ++ joinWith [' '] (w2 :: ws3), ?_⟩
            simp only [joinWith, hw]
            simp
        rcases hhead with ⟨t, ht⟩
        rw [hw] at ht
        rw [ht, List.dropWhile_cons, hc]
        simp
    rcases joinWith_reverse_head (w :: ws2) h (by simp) with ⟨c, rest, hrev, hcfree⟩
    have hdrop2 : (joinWith [' '] (w :: ws2)).reverse.dropWhile pyIsSpace =
        (joinWith [' '] (w :: ws2)).reverse := by
      rw [hrev, List.dropWhile_cons, hcfree]
      simp
    unfold pyStripChars
    rw [hdrop1, hdrop2, List.reverse_reverse]

/-- The normal form: cleanChars output is a join of non-empty whitespace-free
words, and all its characters are fixed points of the substitution maps. -/
theorem cleanChars_idem (l : List Char) : cleanChars (cleanChars l) = cleanChars l := by
  rw [cleanChars_eq_mapAll l]
  set m := l.map mapAll with hm
  set ws := pyWords m with hws
  have hwords : ∀ w ∈ ws, w ≠ [] ∧ ∀ c ∈ w, pyIsSpace c = false := pyWords_sound m
  rw [pyStripChars_joinWith ws hwords]
  set y := joinWith [' '] ws with hy
  have hyfix : ∀ c ∈ y, mapAll c = c := by
    intro c hc
    rcases joinWith_mem ws c hc with h | ⟨w, hw, hcw⟩
    · rw [h]
      exact mapAll_space
    · have hcm : c ∈ m := pyWords_mem m w hw c hcw
      rcases List.mem_map.mp hcm with ⟨a, _, ha⟩
      have hcfree : pyIsSpace c = false := (hwords w hw).2 c hcw
      have hcne : c ≠ ' ' := by
        intro h
        rw [h] at hcfree
        exact absurd hcfree (by decide)
      rcases mapAll_space_or_self a with hs | hs
      · rw [← ha, hs] at hcne
        exact absurd rfl hcne
      · rw [← ha, hs, hs]
  have hmapy : y.map mapAll = y := by
    calc y.map mapAll = y.map id := List.map_congr_left hyfix
    _ = y := List.map_id y
  rw [cleanChars_eq_mapAll y, hmapy, hy, pyWords_joinWith ws hwords]
  exact pyStripChars_joinWith ws hwords

/-- The character pipeline of clean_text_field applied to a string. -/
theorem clean_text_field_data (s : String) (h : s ≠ "") :
    clean_text_field s = String.mk (cleanChars s.data) := by
  unfold clean_text_field
  rw [if_neg h]

/-- C8. clean_text_field is idempotent: cleaning an already-cleaned string
changes nothing; the empty string short-circuits through the falsy test. -/
theorem clean_text_field_idempotent (x : String) :
    clean_text_field (clean_text_field x) = clean_text_field x := by
  by_cases hx : x = ""
  · rw [hx]
    rfl
  · rw [clean_text_field_data x hx]
    by_cases hy : String.mk (cleanChars x.data) = ""
    · rw [hy]
      rfl
    · rw [clean_text_field_data _ hy]
      have hdata : (String.mk (cleanChars x.data)).data = cleanChars x.data := rfl
      rw [hdata, cleanChars_idem]

/-! Claim C10: extract_author_position behaviour. -/

/-- Well-shapedness of one authorship row for the position scan: the author
value (defaulting to an empty dict) is a dict and its id (defaulting to the
empty string) is a string. -/
def wfAuthRow (fs : Row) : Bool :=
  match rowGetD fs "author" (.obj []) with
  | .obj au =>
    match rowGetD au "id" (.str "") with
    | .str _ => true
    | _ => false
  | _ => false

/-- Well-shapedness of one authorship list element. -/
def wfAuthorship (x : JVal) : Bool :=
  match x with
  | .obj fs => wfAuthRow fs
  | _ => false

/-- The suffix test of extract_author_position on one authorship row. -/
def authMatchRow (idc : String) (fs : Row) : Bool :=
  match rowGetD fs "author" (.obj []) with
  | .obj au =>
    match rowGetD au "id" (.str "") with
    | .str aid => strEndsWith (pyLower aid) idc
    | _ => false
  | _ => false

/-- The suffix test on one authorship list element. -/
def authMatchB (idc : String) (x : JVal) : Bool :=
  match x with
  | .obj fs => authMatchRow idc fs
  | _ => false

/-- Field extraction of a well-shaped authorship element. -/
def objFields : JVal → Row
  | .obj fs => fs
  | _ => []

theorem authIdMatches_ok {fs : Row} (idc : String) (h : wfAuthRow fs = true) :
    authIdMatches idc fs = Except.ok (authMatchRow idc fs) := by
  unfold wfAuthRow at h
  unfold authIdMatches authMatchRow
  cases hau : rowGetD fs "author" (.obj [])
  case obj au =>
    rw [hau] at h
    have h2 : (match rowGetD au "id" (JVal.str "") with
        | JVal.str _ => true
        | _ => false) = true := h
    simp only [hau]
    cases hid : rowGetD au "id" (.str "")
    case str aid => simp [hid]
    all_goals rw [hid] at h2
    all_goals simp at h2
  all_goals rw [hau] at h
  all_goals simp at h

theorem exceptBind_ok {α β : Type} (a : α) (f : α → Except String β) :
    (Except.ok a : Except String α) >>= f = f a := rfl

theorem positionName_ne_not_found (i total : Nat) : positionName i total ≠ "Not found" := by
  unfold positionName
  split
  · simp
  · split <;> simp

theorem scanPositions_not_found (idc : String) (total : Nat) :
    ∀ (rows : List Row) (i : Nat), (∀ fs ∈ rows, wfAuthRow fs = true) →
      (scanPositions idc total i rows = Except.ok "Not found" ↔
        ∀ fs ∈ rows, authMatchRow idc fs = false) := by
  intro rows
  induction rows with
  | nil => simp [scanPositions]
  | cons a rest ih =>
    intro i hwf
    have ha := hwf a (by simp)
    have hrest : ∀ fs ∈ rest, wfAuthRow fs = true :=
      fun fs hfs => hwf fs (List.mem_cons_of_mem a hfs)
    unfold scanPositions
    rw [authIdMatches_ok idc ha, exceptBind_ok]
    cases hm : authMatchRow idc a with
    | true =>
      simp only [hm, if_true]
      constructor
      · intro h
        exact absurd (Except.ok.inj h) (positionName_ne_not_found i total)
      · intro h
        have := h a (by simp)
        rw [hm] at this
        exact absurd this (by simp)
    | false =>
      simp only [hm, Bool.false_eq_true, if_false]
      rw [ih (i + 1) hrest]
      constructor
      · intro h fs hfs
        rcases List.mem_cons.mp hfs with he | he
        · rw [he]; exact hm
        · exact h fs he
      · intro h fs hfs
        exact h fs (List.mem_cons_of_mem a hfs)

theorem scanPositions_first_match (idc : String) (total : Nat) :
    ∀ (rows : List Row) (i j : Nat) (hj : j < rows.length),
      (∀ fs ∈ rows, wfAuthRow fs = true) →
      authMatchRow idc (rows.get ⟨j, hj⟩) = true →
      (∀ k (hk : k < j), authMatchRow idc (rows.get ⟨k, Nat.lt_trans hk hj⟩) = false) →
      scanPositions idc total i rows = Except.ok (positionName (i + j) total) := by
  intro rows
  induction rows with
  | nil => intro i j hj; simp at hj
  | cons a rest ih =>
    intro i j hj hwf hmatch hbefore
    have ha := hwf a (by simp)
    have hrest : ∀ fs ∈ rest, wfAuthRow fs = true :=
      fun fs hfs => hwf fs (List.mem_cons_of_mem a hfs)
    unfold scanPositions
    rw [authIdMatches_ok idc ha, exceptBind_ok]
    cases j with
    | zero =>
      have hmt : authMatchRow idc a = true := by simpa using hmatch
      simp [hmt]
    | succ j2 =>
      have hfalse : authMatchRow idc a = false := by
        have := hbefore 0 (Nat.succ_pos j2)
        simpa using this
      simp only [hfalse, Bool.false_eq_true, if_false]
      have hj2 : j2 < rest.length := by
        simpa [Nat.succ_lt_succ_iff] using hj
      have hm2 : authMatchRow idc (rest.get ⟨j2, hj2⟩) = true := by
        simpa using hmatch
      have hb2 : ∀ k (hk : k < j2),
          authMatchRow idc (rest.get ⟨k, Nat.lt_trans hk hj2⟩) = false := by
        intro k hk
        have := hbefore (k + 1) (Nat.succ_lt_succ hk)
        simpa using this
      have := ih (i + 1) j2 hj2 hrest hm2 hb2
      rw [this]
      have : i + 1 + j2 = i + (j2 + 1) := by omega
      rw [this]

theorem mapM_objFields :
    ∀ xs : List JVal, (∀ x ∈ xs, wfAuthorship x = true) →
      xs.mapM asObj = Except.ok (xs.map objFields) := by
  intro xs
  induction xs with
  | nil => intro _; rfl
  | cons x rest ih =>
    intro h
    have hx := h x (by simp)
    have hrest := fun y hy => h y (List.mem_cons_of_mem x hy)
    cases x with
    | obj fs =>
      rw [List.mapM_cons, ih hrest]
      rfl
    | null => simp [wfAuthorship] at hx
    | bool b => simp [wfAuthorship] at hx
    | num n => simp [wfAuthorship] at hx
    | str s => simp [wfAuthorship] at hx
    | arr ys => simp [wfAuthorship] at hx

theorem objFields_wf {x : JVal} (h : wfAuthorship x = true) : wfAuthRow (objFields x) = true := by
  cases x <;> simp [wfAuthorship] at h
  exact h

theorem authMatchB_eq (idc : String) {x : JVal} (h : wfAuthorship x = true) :
    authMatchB idc x = authMatchRow idc (objFields x) := by
  cases x <;> simp [wfAuthorship] at h
  rfl

theorem extract_eq_scan (pub : Row) (xs : List JVal) (a : String)
    (hx : rowGetD pub "authorships" (.arr []) = .arr xs)
    (hwf : ∀ x ∈ xs, wfAuthorship x = true) :
    extract_author_position pub a =
      scanPositions (pyLower a) (xs.map objFields).length 0 (xs.map objFields) := by
  unfold extract_author_position
  rw [hx]
  show (do
      let rows ← xs.mapM asObj
      scanPositions (pyLower a) rows.length 0 rows) =
    scanPositions (pyLower a) (xs.map objFields).length 0 (xs.map objFields)
  rw [mapM_objFields xs hwf, exceptBind_ok]

theorem wfAuthorship_match_empty {x : JVal} (h : wfAuthorship x = true) :
    authMatchB (pyLower "") x = true := by
  cases x <;> simp [wfAuthorship] at h
  rename_i fs
  unfold authMatchB authMatchRow
  unfold wfAuthRow at h
  cases hau : rowGetD fs "author" (.obj [])
  case obj au =>
    rw [hau] at h
    have h2 : (match rowGetD au "id" (JVal.str "") with
        | JVal.str _ => true
        | _ => false) = true := h
    simp only [hau]
    cases hid : rowGetD au "id" (.str "")
    case str aid =>
      simp only [hid]
      show strEndsWith (pyLower aid) (pyLower "") = true
      simp [strEndsWith, pyLower, List.isSuffixOf]
    all_goals rw [hid] at h2
    all_goals simp at h2
  all_goals rw [hau] at h
  all_goals simp at h

/-- C10. For a publication whose authorships list is non-empty and well-shaped,
extract_author_position called with the empty string returns First (the empty
string suffix-matches the first author id); it returns Not found exactly when
no authorship suffix-matches the queried id; and in general the first matching
index wins, so an id that is a suffix of an earlier author id shadows later
authors. -/
theorem C10_author_position_empty_and_not_found (pub : Row) (xs : List JVal) (a : String)
    (hx : rowGetD pub "authorships" (.arr []) = .arr xs)
    (hwf : ∀ x ∈ xs, wfAuthorship x = true) :
    (xs ≠ [] → extract_author_position pub "" = Except.ok "First")
    ∧ (extract_author_position pub a = Except.ok "Not found" ↔
        ∀ x ∈ xs, authMatchB (pyLower a) x = false)
    ∧ (∀ i (hi : i < xs.length), authMatchB (pyLower a) xs[i] = true →
        (∀ j (hj : j < i), authMatchB (pyLower a) (xs.get ⟨j, Nat.lt_trans hj hi⟩) = false) →
        extract_author_position pub a = Except.ok (positionName i xs.length)) := by
  have hrowswf : ∀ fs ∈ xs.map objFields, wfAuthRow fs = true := by
    intro fs hfs
    rcases List.mem_map.mp hfs with ⟨x, hxmem, hfx⟩
    rw [← hfx]
    exact objFields_wf (hwf x hxmem)
  refine ⟨?_, ?_, ?_⟩
  · intro hne
    rw [extract_eq_scan pub xs "" hx hwf]
    cases hxs : xs with
    | nil => exact absurd hxs hne
    | cons x0 rest =>
      subst hxs
      have hwf0 := hwf x0 (by simp)
      have h0 : authMatchRow (pyLower "") (objFields x0) = true := by
        rw [← authMatchB_eq (pyLower "") hwf0]
        exact wfAuthorship_match_empty hwf0
      have hwfrow0 : wfAuthRow (objFields x0) = true := objFields_wf hwf0
      simp only [List.map_cons]
      unfold scanPositions
      rw [authIdMatches_ok (pyLower "") hwfrow0, exceptBind_ok, h0]
      simp [positionName]
  · rw [extract_eq_scan pub xs a hx hwf,
      scanPositions_not_found (pyLower a) (xs.map objFields).length (xs.map objFields) 0 hrowswf]
    constructor
    · intro h x hxmem
      rw [authMatchB_eq (pyLower a) (hwf x hxmem)]
      exact h (objFields x) (List.mem_map_of_mem objFields hxmem)
    · intro h fs hfs
      rcases List.mem_map.mp hfs with ⟨x, hxmem, hfx⟩
      rw [← hfx, ← authMatchB_eq (pyLower a) (hwf x hxmem)]
      exact h x hxmem
  · intro i hi hmatch hbefore
    rw [extract_eq_scan pub xs a hx hwf]
    have hi2 : i < (xs.map objFields).length := by simpa using hi
    have hm2 : authMatchRow (pyLower a) ((xs.map objFields).get ⟨i, hi2⟩) = true := by
      have hg : (xs.map objFields).get ⟨i, hi2⟩ = objFields xs[i] := by simp
      rw [hg, ← authMatchB_eq (pyLower a) (hwf xs[i] (by simp)), hmatch]
    have hb2 : ∀ k (hk : k < i),
        authMatchRow (pyLower a) ((xs.map objFields).get ⟨k, Nat.lt_trans hk hi2⟩) = false := by
      intro k hk
      have hg : (xs.map objFields).get ⟨k, Nat.lt_trans hk hi2⟩ =
          objFields (xs.get ⟨k, Nat.lt_trans hk hi⟩) := by simp
      rw [hg, ← authMatchB_eq (pyLower a) (hwf (xs.get ⟨k, Nat.lt_trans hk hi⟩) (by simp))]
      exact hbefore k hk
    have := scanPositions_first_match (pyLower a) (xs.map objFields).length
      (xs.map objFields) 0 i hi2 hrowswf hm2 hb2
    rw [this]
    simp

/-- A three-author publication used to instantiate the position claims. -/
def authOf (s : String) : JVal := .obj [("author", .obj [("id", .str s)])]

/-- The authorship list of the concrete three-author publication. -/
def auths3 : List JVal :=
  [authOf "https://openalex.org/A1", authOf "https://openalex.org/A2",
   authOf "https://openalex.org/A3"]

/-- The concrete three-author publication. -/
def pub3 : Row := [("authorships", .arr auths3)]

/-- Witness for C10 at a concrete three-author publication: the empty id
returns First, and an unmatched id returns Not found. -/
theorem C10_author_position_witness :
    extract_author_position pub3 "" = Except.ok "First"
    ∧ extract_author_position pub3 "zz" = Except.ok "Not found" := by
  constructor
  · exact (C10_author_position_empty_and_not_found pub3 auths3 "" rfl (by decide)).1
      (by decide)
  · exact (C10_author_position_empty_and_not_found pub3 auths3 "zz" rfl (by decide)).2.1.mpr
      (by decide)

/-! Claim C2: behaviour of rate_limited_get under persistent HTTP 429. -/

/-- Counterexample to C2 as stated: when every attempt yields HTTP 429 the
client stops after exactly 4 attempts (the default bound is max_retries = 3,
checked as retries <= max_retries) and returns the raw 429 response object,
not a failure sentinel; the nominal backoffs are 2, 4, 8 with no cap applied. -/
theorem C2_counterexample :
    rate_limited_get (fun _ => Attempt.status 429) (fun _ => 1) 3 =
      { response := some 429, attempts := 4, waits := [2, 4, 8] }
    ∧ (rate_limited_get (fun _ => Attempt.status 429) (fun _ => 1) 3).response ≠ none
    ∧ (rate_limited_get (fun _ => Attempt.status 429) (fun _ => 1) 3).attempts ≠ 5 := by
  have h : rate_limited_get (fun _ => Attempt.status 429) (fun _ => 1) 3 =
      { response := some 429, attempts := 4, waits := [2, 4, 8] } := by
    unfold rate_limited_get
    rw [rlgLoop]
    norm_num
    rw [rlgLoop]
    norm_num
    rw [rlgLoop]
    norm_num
    rw [rlgLoop]
    norm_num
  refine ⟨h, ?_, ?_⟩ <;> rw [h] <;> simp

/-- C2 (amended). Under persistent HTTP 429 the client terminates after
exactly max_retries + 1 = 4 attempts and returns the raw 429 response (not an
uncaught exception and not a None failure sentinel); the three sleeps are the
nominal backoffs 2, 4 and 8 time units scaled by the per-attempt jitter
factor, with no upper cap applied. -/
theorem C2_amended_persistent_429 (jitter : Nat → ℚ) :
    rate_limited_get (fun _ => Attempt.status 429) jitter 3 =
      { response := some 429, attempts := 4,
        waits := [2 * jitter 0, 4 * jitter 1, 8 * jitter 2] } := by
  unfold rate_limited_get
  rw [rlgLoop]
  norm_num
  rw [rlgLoop]
  norm_num
  rw [rlgLoop]
  norm_num
  rw [rlgLoop]
  norm_num

/-! Claims C1 and C3: paging behaviour of fetch_single_doc_type. -/

/-- The rows one inner page contributes to a stream: empty when the page
request fails, otherwise the processed batch (taken as empty in the
exceptional case, which the paging theorems exclude by hypothesis). -/
def pageRows (server : Option Nat → PageResp)
    (entity_id entity_name entity_type : String) (selected_metadata : List String)
    (p : Nat) : List Row :=
  if (server (some p)).success then
    match process_publications_batch (server (some p)).results entity_id entity_name
        entity_type selected_metadata with
    | .ok rows => rows
    | .error _ => []
  else []

/-- The rows contributed by the first page request. -/
def firstRows (server : Option Nat → PageResp)
    (entity_id entity_name entity_type : String) (selected_metadata : List String) : List Row :=
  match process_publications_batch (server none).results entity_id entity_name
      entity_type selected_metadata with
  | .ok rows => rows
  | .error _ => []

theorem fetchPagesLoop_spec (server : Option Nat → PageResp)
    (eid en et : String) (sel : List String)
    (hok : ∀ p : Nat, ∃ rows, process_publications_batch (server (some p)).results
      eid en et sel = Except.ok rows) :
    ∀ (pages : List Nat) (acc : List Row) (trace : List (Option Nat)),
      fetchPagesLoop server eid en et sel pages acc trace =
        (Except.ok (acc ++ (pages.map (pageRows server eid en et sel)).join),
          trace ++ pages.map some) := by
  intro pages
  induction pages with
  | nil => intro acc trace; simp [fetchPagesLoop]
  | cons p rest ih =>
    intro acc trace
    unfold fetchPagesLoop
    cases hs : (server (some p)).success with
    | true =>
      rcases hok p with ⟨rows, hrows⟩
      rw [if_pos rfl, hrows]
      show fetchPagesLoop server eid en et sel rest (acc ++ rows) (trace ++ [some p]) =
        (Except.ok (acc ++ (List.map (pageRows server eid en et sel) (p :: rest)).join),
          trace ++ List.map some (p :: rest))
      rw [ih (acc ++ rows) (trace ++ [some p])]
      have hpr : pageRows server eid en et sel p = rows := by
        unfold pageRows
        rw [hs, if_pos rfl, hrows]
      simp [hpr]
    | false =>
      rw [if_neg (by simp)]
      rw [ih acc (trace ++ [some p])]
      have hpr : pageRows server eid en et sel p = [] := by
        unfold pageRows
        rw [hs]
        simp
      simp [hpr]

/-- C1 (amended). Pagination is page-number driven, not cursor driven: the
first request carries no page parameter; the first reply's total count fixes
total_pages = min(ceil(total / 50), 200); pages 2..total_pages are then
requested unconditionally (they do not depend on any continuation token in
the replies), so one stream issues at most 200 page requests of 50 records
each, a fixed 10000-record ceiling. -/
theorem C1_pagination_page_numbered (server : Option Nat → PageResp)
    (eid en et : String) (sel : List String)
    (hok : ∀ p : Option Nat, ∃ rows, process_publications_batch (server p).results
      eid en et sel = Except.ok rows) :
    (fetch_single_doc_type server eid en et sel).2 =
      (if (server none).success then
        (none : Option Nat) :: (List.range' 2 (totalPages (server none).total - 1)).map some
      else [none])
    ∧ totalPages (server none).total ≤ 200
    ∧ (fetch_single_doc_type server eid en et sel).2.length ≤ 200 := by
  have htp : totalPages (server none).total ≤ 200 := Nat.min_le_right _ _
  have hmain : (fetch_single_doc_type server eid en et sel).2 =
      (if (server none).success then
        (none : Option Nat) :: (List.range' 2 (totalPages (server none).total - 1)).map some
      else [none]) := by
    unfold fetch_single_doc_type
    cases hs : (server none).success with
    | false => simp [hs]
    | true =>
      rcases hok none with ⟨rows, hrows⟩
      simp only [hs, Bool.not_true, Bool.false_eq_true, if_false, if_true, hrows]
      rw [fetchPagesLoop_spec server eid en et sel (fun p => hok (some p))]
      simp
  refine ⟨hmain, htp, ?_⟩
  rw [hmain]
  cases hs : (server none).success with
  | false => simp [hs]
  | true =>
    simp only [hs, if_true]
    simp only [List.length_cons, List.length_map, List.length_range']
    omega

/-- An all-success server claiming 10001 matching records with empty pages. -/
def srvA : Option Nat → PageResp := fun _ => ⟨[], 10001, true⟩

instance {e a : Type} [DecidableEq e] [DecidableEq a] : DecidableEq (Except e a) := fun x y =>
  match x, y with
  | .ok u, .ok v => decidable_of_iff (u = v) (by simp)
  | .error u, .error v => decidable_of_iff (u = v) (by simp)
  | .ok _, .error _ => isFalse (by simp)
  | .error _, .ok _ => isFalse (by simp)

set_option maxRecDepth 20000 in
/-- Counterexample to C1 as stated: against a server reporting a total of
10001 records, the stream issues exactly 200 page requests (the first without
a page parameter, then pages 2..200) and never requests page 201, regardless
of any continuation information — a fixed 10000-record ceiling, contradicting
cursor-driven continuation with no result-count ceiling. -/
theorem C1_counterexample :
    (fetch_single_doc_type srvA "e" "n" "institution" []).2.length = 200
    ∧ some 201 ∉ (fetch_single_doc_type srvA "e" "n" "institution" []).2
    ∧ (fetch_single_doc_type srvA "e" "n" "institution" []).1 = Except.ok [] := by
  refine ⟨?_, ?_, ?_⟩ <;> decide

/-- Witness for C1 (amended) at the concrete server srvA: the issued page
parameters are exactly none, 2, 3, ..., 200. -/
theorem C1_pagination_witness :
    (fetch_single_doc_type srvA "e" "n" "institution" []).2 =
      (none : Option Nat) :: (List.range' 2 199).map some
    ∧ totalPages (srvA none).total ≤ 200 := by
  have h := C1_pagination_page_numbered srvA "e" "n" "institution" []
    (fun _ => ⟨[], rfl⟩)
  constructor
  · rw [h.1]
    norm_num [srvA, totalPages]
  · exact h.2.1

/-- C3 (amended). A failed first page stops the stream at once with an empty
result; a failed later page is only skipped — the loop still requests every
remaining page up to total_pages — and all rows fetched from successful pages
are kept and returned, not discarded and not turned into an error. -/
theorem C3_stream_failure_keeps_fetched_rows (server : Option Nat → PageResp)
    (eid en et : String) (sel : List String)
    (hok : ∀ p : Option Nat, ∃ rows, process_publications_batch (server p).results
      eid en et sel = Except.ok rows) :
    ((server none).success = false →
      fetch_single_doc_type server eid en et sel = (Except.ok [], [none]))
    ∧ ((server none).success = true →
      (fetch_single_doc_type server eid en et sel).1 =
        Except.ok (firstRows server eid en et sel ++
          ((List.range' 2 (totalPages (server none).total - 1)).map
            (pageRows server eid en et sel)).join)) := by
  constructor
  · intro hs
    unfold fetch_single_doc_type
    simp [hs]
  · intro hs
    unfold fetch_single_doc_type
    rcases hok none with ⟨rows, hrows⟩
    simp only [hs, Bool.not_true, Bool.false_eq_true, if_false, if_true, hrows]
    rw [fetchPagesLoop_spec server eid en et sel (fun p => hok (some p))]
    have hfr : firstRows server eid en et sel = rows := by
      unfold firstRows
      rw [hrows]
    simp [hfr]

/-- A server claiming 150 records (3 pages) that fails exactly on page 2. -/
def srvB : Option Nat → PageResp := fun p => ⟨[], 150, p != some 2⟩

/-- Counterexample to C3 as stated: when the page 2 request fails, page 3 is
still requested — the stream does not stop at the failing page. -/
theorem C3_counterexample :
    (srvB (some 2)).success = false
    ∧ (fetch_single_doc_type srvB "e" "n" "institution" []).2 = [none, some 2, some 3]
    ∧ some 3 ∈ (fetch_single_doc_type srvB "e" "n" "institution" []).2 := by
  refine ⟨?_, ?_, ?_⟩ <;> decide

/-- A server delivering one raw record per page, failing exactly on page 2. -/
def srvC : Option Nat → PageResp := fun p => ⟨[[]], 150, p != some 2⟩

/-- Witness for C3 (amended) at the concrete server srvC, whose page 2 fails:
the stream result is the concatenation of the contributions of the successful
pages. -/
theorem C3_stream_failure_witness :
    (srvC (some 2)).success = false
    ∧ (fetch_single_doc_type srvC "e" "n" "institution" []).1 =
      Except.ok (firstRows srvC "e" "n" "institution" [] ++
        ((List.range' 2 (totalPages (srvC none).total - 1)).map
          (pageRows srvC "e" "n" "institution" [])).join) := by
  refine ⟨by decide, ?_⟩
  exact (C3_stream_failure_keeps_fetched_rows srvC "e" "n" "institution" []
    (fun _ => ⟨_, rfl⟩)).2 rfl

/-! Claim C7: the author candidate resolver. -/

instance : IsTotal Candidate candGe :=
  ⟨fun a b => le_total b.works_count a.works_count⟩

instance : IsTrans Candidate candGe :=
  ⟨fun _ _ _ hab hbc => le_trans hbc hab⟩

theorem buildCandidates_length_le : ∀ l : List Row, (buildCandidates l).length ≤ l.length := by
  intro l
  induction l with
  | nil => simp [buildCandidates]
  | cons m rest ih =>
    unfold buildCandidates
    cases candidateFromResult m with
    | ok c =>
      simp only [List.length_cons]
      omega
    | error e => simp

/-- Two one-field author search results with ascending works counts. -/
def resA : Row := [("id", .str "https://openalex.org/A1"), ("works_count", .num 1)]

/-- The second search result, with the larger works count. -/
def resB : Row := [("id", .str "https://openalex.org/A2"), ("works_count", .num 2)]

/-- Counterexample to C7 as stated: the resolver re-sorts the candidates by
works_count descending, so the API relevance order of the results list is not
preserved — the second API result comes out first. -/
theorem C7_counterexample :
    (fetch_candidates_for_one [resA, resB]).map (fun c => c.id) = ["A2", "A1"]
    ∧ (fetch_candidates_for_one [resA, resB]).map (fun c => c.id) ≠ ["A1", "A2"] := by
  refine ⟨?_, ?_⟩ <;> decide

/-- C7 (amended). The resolver returns at most 20 candidate profiles, drawn
from the first 20 entries of the API results list (a mid-list extraction
failure keeps the candidates built so far), but ranked by works_count
descending — a stable re-sort that preserves API order only among equal
counts — not by the API relevance order. -/
theorem C7_candidates_cap_and_order (results : List Row) :
    (fetch_candidates_for_one results).length ≤ 20
    ∧ (fetch_candidates_for_one results).Perm (buildCandidates (results.take 20))
    ∧ List.Sorted candGe (fetch_candidates_for_one results) := by
  refine ⟨?_, ?_, ?_⟩
  · have h2 := (List.perm_insertionSort candGe (buildCandidates (results.take 20))).length_eq
    unfold fetch_candidates_for_one
    calc (List.insertionSort candGe (buildCandidates (results.take 20))).length
        = (buildCandidates (results.take 20)).length := h2
    _ ≤ (results.take 20).length := buildCandidates_length_le _
    _ ≤ 20 := by
        simp only [List.length_take]
        omega
  · exact List.perm_insertionSort candGe _
  · exact List.sorted_insertionSort candGe _

/-! Claim C9: rows with an absent or empty id and runs without the id field. -/

theorem withinEntityDedupGo_all_falsy :
    ∀ (pubs : List Row) (acc : List (JVal × Row)),
      (∀ r ∈ pubs, (rowGetD r "id" (.str "")).truthy = false) →
      withinEntityDedupGo pubs acc = Except.ok (acc.map (fun kv => kv.2)) := by
  intro pubs
  induction pubs with
  | nil => intro acc _; rfl
  | cons pub rest ih =>
    intro acc h
    have hp := h pub (by simp)
    unfold withinEntityDedupGo
    rw [hp]
    exact ih acc (fun r hr => h r (List.mem_cons_of_mem pub hr))

theorem dedupStep_falsy (seen : List (JVal × DedupEntry)) (pub : Row)
    (h : (rowGetD pub "id" (.str "")).truthy = false) :
    dedupStep seen pub = Except.ok seen := by
  unfold dedupStep
  rw [h]
  rfl

theorem dedup_foldlM_all_falsy :
    ∀ (pubs : List Row) (seen : List (JVal × DedupEntry)),
      (∀ r ∈ pubs, (rowGetD r "id" (.str "")).truthy = false) →
      pubs.foldlM dedupStep seen = Except.ok seen := by
  intro pubs
  induction pubs with
  | nil => intro seen _; rfl
  | cons pub rest ih =>
    intro seen h
    rw [List.foldlM_cons, dedupStep_falsy seen pub (h pub (by simp)), exceptBind_ok]
    exact ih seen (fun r hr => h r (List.mem_cons_of_mem pub hr))

theorem rowGet_map_set_ne (r : Row) (k k2 : String) (v : JVal) (h : k2 ≠ k) :
    rowGet (r.map (fun p => if p.1 == k then (k, v) else p)) k2 = rowGet r k2 := by
  induction r with
  | nil => rfl
  | cons p rest ih =>
    unfold rowGet at ih ⊢
    by_cases hpk : p.1 = k
    · have hb : (p.1 == k) = true := by simp [hpk]
      have hk2 : (k == k2) = false := beq_eq_false_iff_ne.mpr (fun he => h he.symm)
      have hpk2 : (p.1 == k2) = false := by
        rw [hpk]
        exact hk2
      simp only [List.map_cons, hb, if_true, List.find?_cons, hk2, hpk2]
      exact ih
    · have hb : (p.1 == k) = false := by simp [hpk]
      simp only [List.map_cons, hb, Bool.false_eq_true, if_false, List.find?_cons]
      cases hpq : (p.1 == k2) with
      | true => simp only [hpq]
      | false =>
        simp only [hpq]
        exact ih

theorem rowGet_append_single_ne (r : Row) (k k2 : String) (v : JVal) (h : k2 ≠ k) :
    rowGet (r ++ [(k, v)]) k2 = rowGet r k2 := by
  induction r with
  | nil =>
    unfold rowGet
    have hk2 : (k == k2) = false := beq_eq_false_iff_ne.mpr (fun he => h he.symm)
    simp [List.find?_cons, hk2]
  | cons p rest ih =>
    unfold rowGet at ih ⊢
    simp only [List.cons_append, List.find?_cons]
    cases hpq : (p.1 == k2) with
    | true => rfl
    | false => exact ih

theorem rowGet_rowSet_ne (r : Row) (k k2 : String) (v : JVal) (h : k2 ≠ k) :
    rowGet (rowSet r k v) k2 = rowGet r k2 := by
  unfold rowSet
  split
  · exact rowGet_map_set_ne r k k2 v h
  · exact rowGet_append_single_ne r k k2 v h

theorem exceptBind_error {α β : Type} (e : String) (f : α → Except String β) :
    (Except.error e : Except String α) >>= f = Except.error e := rfl

theorem projectFold_no_id :
    ∀ (sel : List String) (pub : Row) (eid en et : String) (r0 r : Row),
      "id" ∉ sel → rowGet r0 "id" = none →
      (sel.foldlM (projectStep pub) r0) = Except.ok r →
      rowGet r "id" = none := by
  intro sel
  induction sel with
  | nil =>
    intro pub eid en et r0 r _ h0 hr
    have : r0 = r := by
      have := Except.ok.inj hr
      exact this
    rw [← this]
    exact h0
  | cons f rest ih =>
    intro pub eid en et r0 r hnid h0 hr
    have hf : f ≠ "id" := fun he => hnid (he ▸ List.mem_cons_self f rest)
    rw [List.foldlM_cons] at hr
    unfold projectStep at hr
    cases hpf : projectField pub f with
    | error e =>
      rw [hpf, exceptBind_error, exceptBind_error] at hr
      exact absurd hr (by simp)
    | ok v =>
      rw [hpf, exceptBind_ok, exceptBind_ok] at hr
      refine ih pub eid en et _ r (fun hm => hnid (List.mem_cons_of_mem f hm)) ?_ hr
      rw [rowGet_rowSet_ne _ f "id" _ (fun he => hf he.symm)]
      exact h0

theorem processOnePub_no_id (pub : Row) (eid en et : String) (sel : List String)
    (hnid : "id" ∉ sel) (r : Row)
    (h : processOnePub pub eid en et sel = Except.ok r) :
    rowGet r "id" = none := by
  unfold processOnePub at h
  by_cases het : et = "institution"
  · rw [if_pos het, exceptBind_ok] at h
    refine projectFold_no_id sel pub eid en et _ r hnid ?_ h
    simp [rowGet]
  · rw [if_neg het] at h
    cases hex : extract_author_position pub eid with
    | error e =>
      rw [hex] at h
      have h2 : (Except.error e : Except String Row) = Except.ok r := h
      exact absurd h2 (by simp)
    | ok pos =>
      rw [hex, exceptBind_ok, exceptBind_ok] at h
      refine projectFold_no_id sel pub eid en et _ r hnid ?_ h
      simp [rowGet]

theorem batch_rows_from (results : List Row) (eid en et : String) (sel : List String) :
    ∀ rows, process_publications_batch results eid en et sel = Except.ok rows →
      ∀ r ∈ rows, ∃ pub ∈ results, processOnePub pub eid en et sel = Except.ok r := by
  induction results with
  | nil =>
    intro rows h r hr
    have : rows = [] := by
      have := Except.ok.inj h.symm
      simpa using this.symm
    rw [this] at hr
    simp at hr
  | cons pub rest ih =>
    intro rows h r hr
    unfold process_publications_batch at h ih
    rw [List.mapM_cons] at h
    cases hp : processOnePub pub eid en et sel with
    | error e =>
      rw [hp, exceptBind_error] at h
      exact absurd h (by simp)
    | ok row0 =>
      rw [hp, exceptBind_ok] at h
      cases hrest : rest.mapM (fun p => processOnePub p eid en et sel) with
      | error e =>
        rw [hrest, exceptBind_error] at h
        exact absurd h (by simp)
      | ok rows0 =>
        rw [hrest, exceptBind_ok] at h
        have : rows = row0 :: rows0 := by
          have h2 : (Except.ok (row0 :: rows0) : Except String (List Row)) = Except.ok rows := h
          exact (Except.ok.inj h2).symm
        subst this
        rcases List.mem_cons.mp hr with he | he
        · exact ⟨pub, by simp, he ▸ hp⟩
        · rcases ih rows0 hrest r he with ⟨p2, hp2, hok⟩
          exact ⟨p2, List.mem_cons_of_mem pub hp2, hok⟩

/-- C9. Rows with an absent or empty id are silently discarded by both
deduplication stages; and when id is not among the selected fields, every
projected row lacks the id key, so a whole processed batch deduplicates to
zero merged rows in both stages. -/
theorem C9_empty_id_rows_discarded :
    (∀ pubs : List Row, (∀ r ∈ pubs, (rowGetD r "id" (.str "")).truthy = false) →
      within_entity_dedup pubs = Except.ok [] ∧
      deduplicate_publications_optimized pubs = Except.ok [])
    ∧ (∀ (results : List Row) (eid en et : String) (sel : List String) (rows : List Row),
        "id" ∉ sel → process_publications_batch results eid en et sel = Except.ok rows →
        within_entity_dedup rows = Except.ok [] ∧
        deduplicate_publications_optimized rows = Except.ok []) := by
  have hpart1 : ∀ pubs : List Row, (∀ r ∈ pubs, (rowGetD r "id" (.str "")).truthy = false) →
      within_entity_dedup pubs = Except.ok [] ∧
      deduplicate_publications_optimized pubs = Except.ok [] := by
    intro pubs h
    constructor
    · unfold within_entity_dedup
      rw [withinEntityDedupGo_all_falsy pubs [] h]
      rfl
    · unfold deduplicate_publications_optimized
      rw [dedup_foldlM_all_falsy pubs [] h]
      rfl
  refine ⟨hpart1, ?_⟩
  intro results eid en et sel rows hnid hok
  refine hpart1 rows ?_
  intro r hr
  rcases batch_rows_from results eid en et sel rows hok r hr with ⟨pub, _, hone⟩
  have hno := processOnePub_no_id pub eid en et sel hnid r hone
  unfold rowGetD
  rw [hno]
  rfl

/-- The projected row of one empty raw record for an institution entity with
only display_name selected. -/
def rows9 : List Row :=
  [[("institutions_extracted", JVal.str "N"), ("authors_extracted", JVal.str ""),
    ("position_extracted", JVal.str ""), ("display_name", JVal.str "")]]

/-- Witness for C9 at concrete inputs: rows with an empty or absent id vanish
in both stages, and a batch projected without the id field deduplicates to
nothing. -/
theorem C9_empty_id_rows_witness :
    within_entity_dedup [[("id", JVal.str "")], [("x", JVal.str "y")]] = Except.ok []
    ∧ deduplicate_publications_optimized [[("id", JVal.str "")], [("x", JVal.str "y")]] =
      Except.ok []
    ∧ within_entity_dedup (rows9 : List Row) = Except.ok []
    ∧ deduplicate_publications_optimized (rows9 : List Row) = Except.ok [] := by
  have h1 := C9_empty_id_rows_discarded.1 [[("id", JVal.str "")], [("x", JVal.str "y")]]
    (by decide)
  have h2 := C9_empty_id_rows_discarded.2 [[]] "e" "N" "institution" ["display_name"]
    rows9 (by decide) (by rfl)
  exact ⟨h1.1, h1.2, h2.1, h2.2⟩

/-! Order-theoretic facts about the string comparison used by sortStr. -/

theorem lexLe_total : ∀ a b : List Char, lexLe a b = true ∨ lexLe b a = true := by
  intro a
  induction a with
  | nil => intro b; left; rfl
  | cons x xs ih =>
    intro b
    cases b with
    | nil => right; rfl
    | cons y ys =>
      unfold lexLe
      by_cases h : x.toNat = y.toNat
      · rw [if_pos h, if_pos h.symm]
        exact ih ys
      · rw [if_neg h, if_neg (fun he => h he.symm)]
        simp only [Nat.blt_eq]
        omega

theorem lexLe_trans : ∀ a b c : List Char,
    lexLe a b = true → lexLe b c = true → lexLe a c = true := by
  intro a
  induction a with
  | nil => intro b c _ _; rfl
  | cons x xs ih =>
    intro b c hab hbc
    cases b with
    | nil => exact absurd hab (by simp [lexLe])
    | cons y ys =>
      cases c with
      | nil => exact absurd hbc (by simp [lexLe])
      | cons z zs =>
        unfold lexLe at hab hbc ⊢
        by_cases hxy : x.toNat = y.toNat
        · rw [if_pos hxy] at hab
          by_cases hyz : y.toNat = z.toNat
          · rw [if_pos hyz] at hbc
            rw [if_pos (hxy.trans hyz)]
            exact ih ys zs hab hbc
          · rw [if_neg hyz] at hbc
            rw [if_neg (fun he => hyz (hxy ▸ he))]
            simp only [Nat.blt_eq] at hbc ⊢
            omega
        · rw [if_neg hxy] at hab
          simp only [Nat.blt_eq] at hab
          by_cases hyz : y.toNat = z.toNat
          · rw [if_neg (fun he => hxy (hyz ▸ he))]
            simp only [Nat.blt_eq]
            omega
          · rw [if_neg hyz] at hbc
            simp only [Nat.blt_eq] at hbc
            have hxz : ¬x.toNat = z.toNat := by omega
            rw [if_neg hxz]
            simp only [Nat.blt_eq]
            omega

theorem lexLe_antisymm : ∀ a b : List Char,
    lexLe a b = true → lexLe b a = true → a = b := by
  intro a
  induction a with
  | nil =>
    intro b _ hba
    cases b with
    | nil => rfl
    | cons y ys => exact absurd hba (by simp [lexLe])
  | cons x xs ih =>
    intro b hab hba
    cases b with
    | nil => exact absurd hab (by simp [lexLe])
    | cons y ys =>
      unfold lexLe at hab hba
      by_cases hxy : x.toNat = y.toNat
      · rw [if_pos hxy] at hab
        rw [if_pos hxy.symm] at hba
        have hchar : x = y := by
          apply Char.ext
          apply UInt32.ext
          exact hxy
        rw [hchar, ih ys hab hba]
      · rw [if_neg hxy] at hab
        rw [if_neg (fun he => hxy he.symm)] at hba
        simp only [Nat.blt_eq] at hab hba
        omega

instance : IsTotal String strLeR :=
  ⟨fun a b => lexLe_total a.data b.data⟩

instance : IsTrans String strLeR :=
  ⟨fun a b c hab hbc => lexLe_trans a.data b.data c.data hab hbc⟩

instance : IsAntisymm String strLeR :=
  ⟨fun a b hab hba => String.ext (lexLe_antisymm a.data b.data hab hba)⟩

theorem sortStr_sorted (xs : List String) : List.Sorted strLeR (sortStr xs) :=
  List.sorted_insertionSort strLeR xs

theorem sortStr_perm (xs : List String) : (sortStr xs).Perm xs :=
  List.perm_insertionSort strLeR xs

theorem sortStr_nodup {xs : List String} (h : xs.Nodup) : (sortStr xs).Nodup :=
  (sortStr_perm xs).nodup_iff.mpr h

theorem sortStr_mem {xs : List String} {s : String} : s ∈ sortStr xs ↔ s ∈ xs :=
  (sortStr_perm xs).mem_iff

theorem sortStr_congr {xs ys : List String} (hx : xs.Nodup) (hy : ys.Nodup)
    (h : ∀ s, s ∈ xs ↔ s ∈ ys) : sortStr xs = sortStr ys := by
  have hperm : (sortStr xs).Perm (sortStr ys) :=
    ((sortStr_perm xs).trans ((List.perm_ext_iff_of_nodup hx hy).mpr h)).trans
      (sortStr_perm ys).symm
  exact List.eq_of_perm_of_sorted hperm (sortStr_sorted xs) (sortStr_sorted ys)

/-! Splitting a pipe join: the alignment arithmetic behind claim C5. -/

/-- Number of pipe-separated items of a string, Python s.split("|") length. -/
def countPipe (s : String) : Nat := (splitOnChar '|' s.data).length

/-- A string free of the pipe separator character. -/
def noPipe (s : String) : Bool := !s.data.contains '|'

theorem splitOnChar_ne_nil (sep : Char) : ∀ l : List Char, splitOnChar sep l ≠ [] := by
  intro l
  induction l with
  | nil => simp [splitOnChar]
  | cons c cs ih =>
    unfold splitOnChar
    by_cases h : c = sep
    · simp [h]
    · rw [if_neg h]
      cases hs : splitOnChar sep cs with
      | nil => simp
      | cons w ws => simp

theorem splitOnChar_free (sep : Char) :
    ∀ l : List Char, (∀ c ∈ l, c ≠ sep) → splitOnChar sep l = [l] := by
  intro l
  induction l with
  | nil => intro _; rfl
  | cons c cs ih =>
    intro h
    unfold splitOnChar
    rw [if_neg (h c (by simp)), ih (fun d hd => h d (List.mem_cons_of_mem c hd))]

theorem splitOnChar_append_free (sep : Char) :
    ∀ (a b : List Char) (w : List Char) (ws : List (List Char)),
      (∀ c ∈ a, c ≠ sep) → splitOnChar sep b = w :: ws →
      splitOnChar sep (a ++ b) = (a ++ w) :: ws := by
  intro a
  induction a with
  | nil => intro b w ws _ hb; simpa using hb
  | cons c a2 ih =>
    intro b w ws h hb
    have hc : c ≠ sep := h c (by simp)
    have h2 := ih b w ws (fun d hd => h d (List.mem_cons_of_mem c hd)) hb
    simp only [List.cons_append]
    unfold splitOnChar
    rw [if_neg hc, h2]

theorem countPipe_pipeJoin :
    ∀ xs : List String, (∀ s ∈ xs, noPipe s = true) →
      countPipe (pipeJoin xs) = max xs.length 1 := by
  intro xs
  induction xs with
  | nil => intro _; rfl
  | cons w ws ih =>
    intro h
    have hw : ∀ c ∈ w.data, c ≠ '|' := by
      have hnp := h w (by simp)
      simp only [noPipe, Bool.not_eq_true'] at hnp
      intro c hc he
      have hcon : w.data.contains '|' = true :=
        List.contains_iff_exists_mem_beq.mpr ⟨c, hc, by simp [he]⟩
      rw [hnp] at hcon
      exact absurd hcon (by simp)
    cases ws with
    | nil =>
      unfold countPipe pipeJoin
      have : joinWith [' ', '|', ' '] ([w].map String.data) = w.data := by
        simp [joinWith]
      rw [this] at *
      have hd : (String.mk w.data).data = w.data := rfl
      rw [hd, splitOnChar_free ('|') w.data hw]
      rfl
    | cons w2 ws2 =>
      have hrest : ∀ s ∈ w2 :: ws2, noPipe s = true :=
        fun s hs => h s (List.mem_cons_of_mem w hs)
      have ihr := ih hrest
      unfold countPipe at ihr ⊢
      unfold pipeJoin at ihr ⊢
      have hjd : ∀ l : List Char, (String.mk l).data = l := fun l => rfl
      rw [hjd] at ihr ⊢
      have hjoin : joinWith [' ', '|', ' '] ((w :: w2 :: ws2).map String.data) =
          (w.data ++ [' ']) ++ ('|' :: ' ' ::
            joinWith [' ', '|', ' '] ((w2 :: ws2).map String.data)) := by
        simp only [List.map_cons, joinWith]
        simp [List.append_assoc]
      rw [hjoin]
      set j := joinWith [' ', '|', ' '] ((w2 :: ws2).map String.data) with hj
      cases hsj : splitOnChar '|' j with
      | nil => exact absurd hsj (splitOnChar_ne_nil '|' j)
      | cons wj wsj =>
        have hsp : splitOnChar '|' (' ' :: j) = (' ' :: wj) :: wsj := by
          unfold splitOnChar
          rw [if_neg (by decide), hsj]
        have hpipe : splitOnChar '|' ('|' :: ' ' :: j) = [] :: (' ' :: wj) :: wsj := by
          unfold splitOnChar
          rw [if_pos rfl, hsp]
        have hfree : ∀ c ∈ w.data ++ [' '], c ≠ '|' := by
          intro c hc
          rcases List.mem_append.mp hc with hm | hm
          · exact hw c hm
          · simp at hm
            rw [hm]
            decide
        rw [splitOnChar_append_free ('|') (w.data ++ [' ']) _ _ _ hfree hpipe]
        rw [hsj] at ihr
        simp at ihr ⊢
        omega

/-! Claim C5: alignment of the merged author and position columns. -/

/-- Typing of one input row for the merge stage (the three provenance reads
are strings, as the Record Projector emits), with the merge keys — the
stripped author label and stripped position — free of the pipe separator. -/
def dedupRowOk (r : Row) : Bool :=
  match pyOrEmptyStr (rowGet r "institutions_extracted"),
      pyOrEmptyStr (rowGet r "authors_extracted"),
      pyOrEmptyStr (rowGet r "position_extracted") with
  | .str _, .str a, .str p => noPipe (pyStripStr a) && noPipe (pyStripStr p)
  | _, _, _ => false

/-- Invariant on one merge entry: every recorded author label and position is
pipe-free. -/
def EntryOk (e : DedupEntry) : Prop :=
  ∀ kv ∈ e.apos, noPipe kv.1 = true ∧ noPipe kv.2 = true

theorem alistSet_pres {P : String × String → Prop} {m : List (String × String)}
    (h : ∀ kv ∈ m, P kv) {k v : String} (hkv : P (k, v)) :
    ∀ kv ∈ alistSet m k v, P kv := by
  intro kv hm
  unfold alistSet at hm
  split at hm
  · rcases List.mem_map.mp hm with ⟨p, hp, hf⟩
    by_cases hpk : (p.1 == k) = true
    · rw [if_pos hpk] at hf
      rw [← hf]
      exact hkv
    · rw [if_neg hpk] at hf
      rw [← hf]
      exact h p hp
  · rcases List.mem_append.mp hm with hm2 | hm2
    · exact h kv hm2
    · have : kv = (k, v) := by simpa using hm2
      rw [this]
      exact hkv

theorem dedupUpdate_pres {pub : Row} {e e2 : DedupEntry}
    (hp : dedupRowOk pub = true) (he : EntryOk e)
    (h : dedupUpdate e pub = Except.ok e2) : EntryOk e2 ∧ e2.data = e.data := by
  unfold dedupRowOk at hp
  unfold dedupUpdate at h
  cases h1 : pyOrEmptyStr (rowGet pub "institutions_extracted") with
  | str si =>
    cases h2 : pyOrEmptyStr (rowGet pub "authors_extracted") with
    | str sa =>
      cases h3 : pyOrEmptyStr (rowGet pub "position_extracted") with
      | str sp =>
        rw [h1, h2, h3] at hp
        have hpa : noPipe (pyStripStr sa) = true ∧ noPipe (pyStripStr sp) = true := by
          simpa using hp
        rw [h1, h2, h3] at h
        simp only [pyStripVal, exceptBind_ok] at h
        have he2 := Except.ok.inj h
        rw [← he2]
        refine ⟨?_, rfl⟩
        intro kv hkv
        simp only at hkv
        by_cases hal : pyStripStr sa ≠ ""
        · rw [if_pos hal] at hkv
          cases hg : alistGet e.apos (pyStripStr sa) with
          | none =>
            simp only [hg] at hkv
            exact alistSet_pres he ⟨hpa.1, hpa.2⟩ kv hkv
          | some q =>
            simp only [hg] at hkv
            by_cases hq : q = ""
            · rw [if_pos hq] at hkv
              exact alistSet_pres he ⟨hpa.1, hpa.2⟩ kv hkv
            · rw [if_neg hq] at hkv
              exact he kv hkv
        · rw [if_neg hal] at hkv
          exact he kv hkv
      | null => rw [h1, h2, h3] at hp; simp at hp
      | bool b => rw [h1, h2, h3] at hp; simp at hp
      | num n => rw [h1, h2, h3] at hp; simp at hp
      | arr xs => rw [h1, h2, h3] at hp; simp at hp
      | obj fs => rw [h1, h2, h3] at hp; simp at hp
    | null => rw [h1, h2] at hp; simp at hp
    | bool b => rw [h1, h2] at hp; simp at hp
    | num n => rw [h1, h2] at hp; simp at hp
    | arr xs => rw [h1, h2] at hp; simp at hp
    | obj fs => rw [h1, h2] at hp; simp at hp
  | null => rw [h1] at hp; simp at hp
  | bool b => rw [h1] at hp; simp at hp
  | num n => rw [h1] at hp; simp at hp
  | arr xs => rw [h1] at hp; simp at hp
  | obj fs => rw [h1] at hp; simp at hp

theorem seenUpdate_pres {pub : Row} (pid : JVal)
    (hp : dedupRowOk pub = true) :
    ∀ (seen seen2 : List (JVal × DedupEntry)),
      (∀ kv ∈ seen, EntryOk kv.2) →
      seenUpdate seen pid pub = Except.ok seen2 →
      ∀ kv ∈ seen2, EntryOk kv.2 := by
  intro seen
  induction seen with
  | nil =>
    intro seen2 _ h kv hkv
    have : seen2 = [] := by
      have := Except.ok.inj h
      exact this.symm
    rw [this] at hkv
    simp at hkv
  | cons kv0 rest ih =>
    intro seen2 hs h kv hkv
    unfold seenUpdate at h ih
    rw [List.mapM_cons] at h
    by_cases hk : kv0.1 = pid
    · rw [if_pos hk] at h
      cases hu : dedupUpdate kv0.2 pub with
      | error e =>
        rw [hu] at h
        have hc : (Except.error e : Except String (List (JVal × DedupEntry))) =
            Except.ok seen2 := h
        exact absurd hc (by simp)
      | ok e2 =>
        rw [hu, exceptBind_ok, exceptBind_ok] at h
        cases hrest : rest.mapM (fun kv => if kv.1 = pid then do
            let e ← dedupUpdate kv.2 pub
            Except.ok (kv.1, e)
          else Except.ok kv) with
        | error e2 =>
          rw [hrest] at h
          have hc : (Except.error e2 : Except String (List (JVal × DedupEntry))) =
              Except.ok seen2 := h
          exact absurd hc (by simp)
        | ok rest2 =>
          rw [hrest, exceptBind_ok] at h
          have hse : (kv0.1, e2) :: rest2 = seen2 := Except.ok.inj h
          rw [← hse] at hkv
          rcases List.mem_cons.mp hkv with he | he
          · rw [he]
            exact (dedupUpdate_pres hp (hs kv0 (by simp)) hu).1
          · exact ih rest2 (fun q hq => hs q (List.mem_cons_of_mem kv0 hq)) hrest kv he
    · rw [if_neg hk, exceptBind_ok] at h
      cases hrest : rest.mapM (fun kv => if kv.1 = pid then do
          let e ← dedupUpdate kv.2 pub
          Except.ok (kv.1, e)
        else Except.ok kv) with
      | error e2 =>
        rw [hrest] at h
        have hc : (Except.error e2 : Except String (List (JVal × DedupEntry))) =
            Except.ok seen2 := h
        exact absurd hc (by simp)
      | ok rest2 =>
        rw [hrest, exceptBind_ok] at h
        have hse : kv0 :: rest2 = seen2 := Except.ok.inj h
        rw [← hse] at hkv
        rcases List.mem_cons.mp hkv with he | he
        · rw [he]
          exact hs kv0 (by simp)
        · exact ih rest2 (fun q hq => hs q (List.mem_cons_of_mem kv0 hq)) hrest kv he

theorem dedupStep_pres {pub : Row} {seen seen2 : List (JVal × DedupEntry)}
    (hp : dedupRowOk pub = true)
    (hs : ∀ kv ∈ seen, EntryOk kv.2)
    (h : dedupStep seen pub = Except.ok seen2) :
    ∀ kv ∈ seen2, EntryOk kv.2 := by
  unfold dedupStep at h
  by_cases ht : (rowGetD pub "id" (JVal.str "")).truthy = true
  · rw [ht] at h
    simp only [Bool.not_true, Bool.false_eq_true, if_false] at h
    cases hh : hashableKey (rowGetD pub "id" (JVal.str "")) with
    | error e =>
      rw [hh] at h
      have hc : (Except.error e : Except String (List (JVal × DedupEntry))) =
          Except.ok seen2 := h
      exact absurd hc (by simp)
    | ok pid =>
      rw [hh, exceptBind_ok] at h
      by_cases hmem : (seen.any fun kv => kv.1 == pid) = true
      · rw [if_pos hmem] at h
        exact seenUpdate_pres pid hp seen seen2 hs h
      · rw [if_neg hmem] at h
        refine seenUpdate_pres pid hp (seen ++ [(pid, ⟨pub, [], []⟩)]) seen2 ?_ h
        intro kv hkv
        rcases List.mem_append.mp hkv with hm | hm
        · exact hs kv hm
        · have : kv = (pid, (⟨pub, [], []⟩ : DedupEntry)) := by simpa using hm
          rw [this]
          intro q hq
          simp at hq
  · have ht2 : (rowGetD pub "id" (JVal.str "")).truthy = false := by
      cases hx : (rowGetD pub "id" (JVal.str "")).truthy
      · rfl
      · exact absurd hx ht
    rw [ht2] at h
    simp only [Bool.not_false, if_true] at h
    have : seen = seen2 := Except.ok.inj h
    rw [← this]
    exact hs

theorem dedup_fold_pres :
    ∀ (pubs : List Row) (seen seen2 : List (JVal × DedupEntry)),
      (∀ r ∈ pubs, dedupRowOk r = true) →
      (∀ kv ∈ seen, EntryOk kv.2) →
      pubs.foldlM dedupStep seen = Except.ok seen2 →
      ∀ kv ∈ seen2, EntryOk kv.2 := by
  intro pubs
  induction pubs with
  | nil =>
    intro seen seen2 _ hs h
    have : seen = seen2 := Except.ok.inj h
    rw [← this]
    exact hs
  | cons pub rest ih =>
    intro seen seen2 hp hs h
    rw [List.foldlM_cons] at h
    cases hstep : dedupStep seen pub with
    | error e =>
      rw [hstep] at h
      have hc : (Except.error e : Except String (List (JVal × DedupEntry))) =
          Except.ok seen2 := h
      exact absurd hc (by simp)
    | ok seen1 =>
      rw [hstep, exceptBind_ok] at h
      exact ih seen1 seen2 (fun r hr => hp r (List.mem_cons_of_mem pub hr))
        (dedupStep_pres (hp pub (by simp)) hs hstep) h

theorem rowGet_map_set_self (k : String) (v : JVal) :
    ∀ r : Row, r.any (fun p => p.1 == k) = true →
      rowGet (r.map (fun p => if p.1 == k then (k, v) else p)) k = some v := by
  intro r
  induction r with
  | nil => simp
  | cons p rest ih =>
    intro hany
    unfold rowGet
    by_cases hpk : (p.1 == k) = true
    · have hkk : (k == k) = true := by simp
      simp only [List.map_cons, hpk, if_true, List.find?_cons, hkk]
      rfl
    · have hpk2 : (p.1 == k) = false := by
        cases hx : (p.1 == k)
        · rfl
        · exact absurd hx hpk
      simp only [List.map_cons, hpk2, Bool.false_eq_true, if_false, List.find?_cons, hpk2]
      have hany2 : rest.any (fun p => p.1 == k) = true := by
        simp only [List.any_cons, hpk2, Bool.false_or] at hany
        exact hany
      exact ih hany2

theorem rowGet_append_single_self (k : String) (v : JVal) :
    ∀ r : Row, r.any (fun p => p.1 == k) = false →
      rowGet (r ++ [(k, v)]) k = some v := by
  intro r
  induction r with
  | nil =>
    intro _
    unfold rowGet
    simp [List.find?_cons]
  | cons p rest ih =>
    intro hany
    simp only [List.any_cons, Bool.or_eq_false_iff] at hany
    unfold rowGet
    simp only [List.cons_append, List.find?_cons, hany.1]
    exact ih hany.2

theorem rowGet_rowSet_self (r : Row) (k : String) (v : JVal) :
    rowGet (rowSet r k v) k = some v := by
  unfold rowSet
  split
  · exact rowGet_map_set_self k v r (by assumption)
  · refine rowGet_append_single_self k v r ?_
    rename_i hany
    cases hx : r.any (fun p => p.1 == k)
    · rfl
    · exact absurd hx hany

theorem alistGet_mem {m : List (String × String)} {k v : String}
    (h : alistGet m k = some v) : (k, v) ∈ m := by
  unfold alistGet at h
  cases hf : m.find? (fun p => p.1 == k) with
  | none => rw [hf] at h; simp at h
  | some q =>
    rw [hf] at h
    have hq : q.2 = v := by simpa using h
    have hmem := List.mem_of_find?_eq_some hf
    have hk : (q.1 == k) = true := by
      have := List.find?_some hf
      simpa using this
    have hk2 : q.1 = k := by simpa using hk
    have : q = (k, v) := by
      cases q
      simp only at hk2 hq
      rw [hk2, hq]
    rw [← this]
    exact hmem

theorem build_align {e : DedupEntry} (he : EntryOk e) :
    ∃ a p, rowGet (dedupBuildRow e) "authors_extracted" = some (JVal.str a)
      ∧ rowGet (dedupBuildRow e) "position_extracted" = some (JVal.str p)
      ∧ countPipe a = countPipe p := by
  unfold dedupBuildRow
  set L := sortStr (e.apos.map (fun p => p.1)) with hL
  set P := L.map (fun a => (alistGet e.apos a).getD "") with hP
  refine ⟨pipeJoin L, pipeJoin P, ?_, ?_, ?_⟩
  · rw [rowGet_rowSet_ne _ _ _ _ (by decide)]
    exact rowGet_rowSet_self _ _ _
  · exact rowGet_rowSet_self _ _ _
  · have hLfree : ∀ s ∈ L, noPipe s = true := by
      intro s hs
      rw [hL] at hs
      have : s ∈ e.apos.map (fun p => p.1) := sortStr_mem.mp hs
      rcases List.mem_map.mp this with ⟨kv, hkv, hfst⟩
      rw [← hfst]
      exact (he kv hkv).1
    have hPfree : ∀ s ∈ P, noPipe s = true := by
      intro s hs
      rw [hP] at hs
      rcases List.mem_map.mp hs with ⟨a, _, hfa⟩
      cases hg : alistGet e.apos a with
      | none =>
        rw [hg] at hfa
        rw [← hfa]
        decide
      | some v =>
        rw [hg] at hfa
        simp only [Option.getD_some] at hfa
        rw [← hfa]
        exact (he (a, v) (alistGet_mem hg)).2
    rw [countPipe_pipeJoin L hLfree, countPipe_pipeJoin P hPfree, hP, List.length_map]

/-- C5 (amended). For every merged row built by the merge stage from rows
whose provenance fields are strings and whose stripped author labels and
positions contain no pipe character, the pipe-separated item counts of
authors_extracted and position_extracted coincide, position i belonging to
author i in the sorted author order. -/
theorem C5_alignment_invariant (pubs rows : List Row)
    (h : ∀ r ∈ pubs, dedupRowOk r = true)
    (hd : deduplicate_publications_optimized pubs = Except.ok rows) :
    ∀ row ∈ rows, ∃ a p, rowGet row "authors_extracted" = some (JVal.str a)
      ∧ rowGet row "position_extracted" = some (JVal.str p)
      ∧ countPipe a = countPipe p := by
  intro row hrow
  unfold deduplicate_publications_optimized at hd
  cases hf : pubs.foldlM dedupStep [] with
  | error e =>
    rw [hf] at hd
    have hc : (Except.error e : Except String (List Row)) = Except.ok rows := hd
    exact absurd hc (by simp)
  | ok seen =>
    rw [hf, exceptBind_ok] at hd
    have hrows : seen.map (fun kv => dedupBuildRow kv.2) = rows := Except.ok.inj hd
    rw [← hrows] at hrow
    rcases List.mem_map.mp hrow with ⟨kv, hkv, hb⟩
    have hok := dedup_fold_pres pubs [] seen h (by simp) hf kv hkv
    rw [← hb]
    exact build_align hok

/-- An input row for the merge whose author label contains the pipe
separator. -/
def rowPipe : Row :=
  [("id", JVal.str "W1"), ("institutions_extracted", JVal.str ""),
   ("authors_extracted", JVal.str "x | y"), ("position_extracted", JVal.str "First")]

/-- Counterexample to C5 as stated: a single projected row whose author label
contains a pipe yields a merged row whose authors_extracted splits into two
pipe-separated items while position_extracted splits into one. -/
theorem C5_counterexample :
    deduplicate_publications_optimized [rowPipe] = Except.ok
      [[("id", JVal.str "W1"), ("institutions_extracted", JVal.str ""),
        ("authors_extracted", JVal.str "x | y"), ("position_extracted", JVal.str "First")]]
    ∧ countPipe "x | y" = 2 ∧ countPipe "First" = 1 := by
  refine ⟨?_, ?_, ?_⟩ <;> decide

/-- Two projected rows of one work from two matched authors, pipe-free. -/
def pubsW : List Row :=
  [[("id", JVal.str "W1"), ("institutions_extracted", JVal.str ""),
    ("authors_extracted", JVal.str "Ann"), ("position_extracted", JVal.str "First")],
   [("id", JVal.str "W1"), ("institutions_extracted", JVal.str ""),
    ("authors_extracted", JVal.str "Bob"), ("position_extracted", JVal.str "Last")]]

/-- The merged row of pubsW. -/
def mergedW : Row :=
  [("id", JVal.str "W1"), ("institutions_extracted", JVal.str ""),
   ("authors_extracted", JVal.str "Ann | Bob"), ("position_extracted", JVal.str "First | Last")]

/-- Witness for C5 (amended) at a concrete two-author merge. -/
theorem C5_alignment_witness :
    ∃ a p, rowGet mergedW "authors_extracted" = some (JVal.str a)
      ∧ rowGet mergedW "position_extracted" = some (JVal.str p)
      ∧ countPipe a = countPipe p :=
  C5_alignment_invariant pubsW [mergedW] (by decide) (by decide) mergedW (by decide)

/-! Claim C6: the merged institution labels of one work. -/

/-- The stripped non-empty institution labels contributed by a row list. -/
def instLabels (pubs : List Row) : List String :=
  pubs.filterMap (fun r =>
    match pyOrEmptyStr (rowGet r "institutions_extracted") with
    | .str s => if pyStripStr s ≠ "" then some (pyStripStr s) else none
    | _ => none)

theorem insertNew_mem {xs : List String} {x y : String} :
    y ∈ insertNew xs x ↔ y ∈ xs ∨ y = x := by
  unfold insertNew
  split
  · rename_i hcon
    constructor
    · exact Or.inl
    · intro h
      rcases h with h | h
      · exact h
      · rw [h]
        rcases List.contains_iff_exists_mem_beq.mp hcon with ⟨a, ha, hba⟩
        have : x = a := by simpa using hba
        rw [this]
        exact ha
  · simp

theorem insertNew_nodup {xs : List String} {x : String} (h : xs.Nodup) :
    (insertNew xs x).Nodup := by
  unfold insertNew
  split
  · exact h
  · rename_i hcon
    have hx : x ∉ xs := by
      intro hmem
      have : xs.contains x = true := List.contains_iff_exists_mem_beq.mpr ⟨x, hmem, by simp⟩
      rw [this] at hcon
      simp at hcon
    simp [List.nodup_append, h, hx]

theorem insertNew_ne_empty {xs : List String} {x : String}
    (hxs : ∀ s ∈ xs, s ≠ "") (hx : x ≠ "") : ∀ s ∈ insertNew xs x, s ≠ "" := by
  intro s hs
  rcases insertNew_mem.mp hs with h | h
  · exact hxs s h
  · rw [h]
    exact hx

theorem dedupUpdate_spec {pub : Row} (e : DedupEntry) (hp : dedupRowOk pub = true) :
    ∃ si, pyOrEmptyStr (rowGet pub "institutions_extracted") = JVal.str si
      ∧ ∃ e2, dedupUpdate e pub = Except.ok e2
        ∧ e2.insts = (if pyStripStr si ≠ "" then insertNew e.insts (pyStripStr si) else e.insts)
        ∧ e2.data = e.data := by
  unfold dedupRowOk at hp
  cases h1 : pyOrEmptyStr (rowGet pub "institutions_extracted") with
  | str si =>
    cases h2 : pyOrEmptyStr (rowGet pub "authors_extracted") with
    | str sa =>
      cases h3 : pyOrEmptyStr (rowGet pub "position_extracted") with
      | str sp =>
        refine ⟨si, rfl, ?_⟩
        unfold dedupUpdate
        rw [h1, h2, h3]
        simp only [pyStripVal, exceptBind_ok]
        exact ⟨_, rfl, rfl, rfl⟩
      | null => rw [h1, h2, h3] at hp; simp at hp
      | bool b => rw [h1, h2, h3] at hp; simp at hp
      | num n => rw [h1, h2, h3] at hp; simp at hp
      | arr xs => rw [h1, h2, h3] at hp; simp at hp
      | obj fs => rw [h1, h2, h3] at hp; simp at hp
    | null => rw [h1, h2] at hp; simp at hp
    | bool b => rw [h1, h2] at hp; simp at hp
    | num n => rw [h1, h2] at hp; simp at hp
    | arr xs => rw [h1, h2] at hp; simp at hp
    | obj fs => rw [h1, h2] at hp; simp at hp
  | null => rw [h1] at hp; simp at hp
  | bool b => rw [h1] at hp; simp at hp
  | num n => rw [h1] at hp; simp at hp
  | arr xs => rw [h1] at hp; simp at hp
  | obj fs => rw [h1] at hp; simp at hp

theorem truthy_str_of_ne {wid : String} (hw : wid ≠ "") :
    (JVal.str wid).truthy = true := by
  simp [JVal.truthy, hw]

theorem seenUpdate_single {wid : String} {pub : Row} {e e2 : DedupEntry}
    (hupd : dedupUpdate e pub = Except.ok e2) :
    seenUpdate [(JVal.str wid, e)] (JVal.str wid) pub =
      Except.ok [(JVal.str wid, e2)] := by
  unfold seenUpdate
  rw [List.mapM_cons, if_pos rfl, hupd, exceptBind_ok, exceptBind_ok]
  rfl

theorem dedupStep_single {wid : String} {pub : Row} (e : DedupEntry)
    (hw : wid ≠ "") (hid : rowGetD pub "id" (.str "") = JVal.str wid)
    (hp : dedupRowOk pub = true) :
    ∃ e2, dedupStep [(JVal.str wid, e)] pub = Except.ok [(JVal.str wid, e2)]
      ∧ dedupUpdate e pub = Except.ok e2 := by
  rcases dedupUpdate_spec e hp with ⟨si, _, e2, hupd, _, _⟩
  refine ⟨e2, ?_, hupd⟩
  unfold dedupStep
  rw [hid, truthy_str_of_ne hw]
  simp only [Bool.not_true, Bool.false_eq_true, if_false]
  have hhash : hashableKey (JVal.str wid) = Except.ok (JVal.str wid) := rfl
  rw [hhash, exceptBind_ok]
  have hany : (([(JVal.str wid, e)] : List (JVal × DedupEntry)).any
      fun kv => kv.1 == JVal.str wid) = true := by
    simp
  rw [if_pos hany]
  exact seenUpdate_single hupd

theorem dedupStep_first {wid : String} {pub : Row}
    (hw : wid ≠ "") (hid : rowGetD pub "id" (.str "") = JVal.str wid)
    (hp : dedupRowOk pub = true) :
    ∃ e2, dedupStep [] pub = Except.ok [(JVal.str wid, e2)]
      ∧ dedupUpdate ⟨pub, [], []⟩ pub = Except.ok e2 := by
  rcases dedupUpdate_spec (⟨pub, [], []⟩ : DedupEntry) hp with ⟨si, _, e2, hupd, _, _⟩
  refine ⟨e2, ?_, hupd⟩
  unfold dedupStep
  rw [hid, truthy_str_of_ne hw]
  simp only [Bool.not_true, Bool.false_eq_true, if_false]
  have hhash : hashableKey (JVal.str wid) = Except.ok (JVal.str wid) := rfl
  rw [hhash, exceptBind_ok]
  have hany : (([] : List (JVal × DedupEntry)).any fun kv => kv.1 == JVal.str wid) = false := by
    simp
  rw [if_neg (by simp)]
  exact seenUpdate_single hupd

theorem dedup_fold_single (wid : String) (hw : wid ≠ "") :
    ∀ (pubs : List Row) (e : DedupEntry) (labels : List String),
      (∀ r ∈ pubs, rowGetD r "id" (.str "") = JVal.str wid) →
      (∀ r ∈ pubs, dedupRowOk r = true) →
      e.insts.Nodup → (∀ s, s ∈ e.insts ↔ s ∈ labels) → (∀ s ∈ e.insts, s ≠ "") →
      ∃ e2, pubs.foldlM dedupStep [(JVal.str wid, e)] = Except.ok [(JVal.str wid, e2)]
        ∧ e2.insts.Nodup
        ∧ (∀ s, s ∈ e2.insts ↔ s ∈ labels ++ instLabels pubs)
        ∧ (∀ s ∈ e2.insts, s ≠ "") ∧ e2.data = e.data := by
  intro pubs
  induction pubs with
  | nil =>
    intro e labels _ _ hnd hmem hne
    refine ⟨e, rfl, hnd, ?_, hne, rfl⟩
    intro s
    simp [instLabels, hmem s]
  | cons r rest ih =>
    intro e labels hid hok hnd hmem hne
    have hidr := hid r (by simp)
    have hokr := hok r (by simp)
    rcases dedupUpdate_spec e hokr with ⟨si, hsi, e1, hupd, hinsts, hdata⟩
    rcases dedupStep_single e hw hidr hokr with ⟨e1b, hstep, hupd2⟩
    have he1 : e1b = e1 := by
      rw [hupd] at hupd2
      exact (Except.ok.inj hupd2).symm
    subst he1
    rw [List.foldlM_cons, hstep, exceptBind_ok]
    have hlab : instLabels (r :: rest) =
        (if pyStripStr si ≠ "" then [pyStripStr si] else []) ++ instLabels rest := by
      unfold instLabels
      rw [List.filterMap_cons]
      simp only [hsi]
      by_cases hsi2 : pyStripStr si ≠ ""
      · rw [if_pos hsi2, if_pos hsi2]
        rfl
      · rw [if_neg hsi2, if_neg hsi2]
        rfl
    by_cases hsi2 : pyStripStr si ≠ ""
    · have hinsts2 : e1b.insts = insertNew e.insts (pyStripStr si) := by
        rw [hinsts, if_pos hsi2]
      rcases ih e1b (labels ++ [pyStripStr si])
        (fun q hq => hid q (List.mem_cons_of_mem r hq))
        (fun q hq => hok q (List.mem_cons_of_mem r hq))
        (by rw [hinsts2]; exact insertNew_nodup hnd)
        (by
          intro s
          rw [hinsts2, insertNew_mem]
          simp only [List.mem_append, List.mem_singleton]
          rw [hmem s])
        (by
          rw [hinsts2]
          exact insertNew_ne_empty hne hsi2) with ⟨e2, hfold, hnd2, hmem2, hne2, hdata2⟩
      refine ⟨e2, hfold, hnd2, ?_, hne2, by rw [hdata2, hdata]⟩
      intro s
      rw [hmem2 s, hlab]
      simp only [List.mem_append, List.mem_singleton, if_pos hsi2]
      constructor
      · intro h
        rcases h with (h | h) | h
        · exact Or.inl h
        · exact Or.inr (Or.inl (by simpa using h))
        · exact Or.inr (Or.inr h)
      · intro h
        rcases h with h | h | h
        · exact Or.inl (Or.inl h)
        · exact Or.inl (Or.inr (by simpa using h))
        · exact Or.inr h
    · have hinsts2 : e1b.insts = e.insts := by
        rw [hinsts, if_neg hsi2]
      rcases ih e1b labels
        (fun q hq => hid q (List.mem_cons_of_mem r hq))
        (fun q hq => hok q (List.mem_cons_of_mem r hq))
        (by rw [hinsts2]; exact hnd)
        (by rw [hinsts2]; exact hmem)
        (by rw [hinsts2]; exact hne) with ⟨e2, hfold, hnd2, hmem2, hne2, hdata2⟩
      refine ⟨e2, hfold, hnd2, ?_, hne2, by rw [hdata2, hdata]⟩
      intro s
      rw [hmem2 s, hlab]
      simp [if_neg hsi2]

theorem dedup_fold_all (wid : String) (hw : wid ≠ "") (pubs : List Row)
    (hne : pubs ≠ [])
    (hid : ∀ r ∈ pubs, rowGetD r "id" (.str "") = JVal.str wid)
    (hok : ∀ r ∈ pubs, dedupRowOk r = true) :
    ∃ E, pubs.foldlM dedupStep [] = Except.ok [(JVal.str wid, E)]
      ∧ E.insts.Nodup
      ∧ (∀ s, s ∈ E.insts ↔ s ∈ instLabels pubs)
      ∧ (∀ s ∈ E.insts, s ≠ "") := by
  cases pubs with
  | nil => exact absurd rfl hne
  | cons r rest =>
    have hidr := hid r (by simp)
    have hokr := hok r (by simp)
    rcases dedupUpdate_spec (⟨r, [], []⟩ : DedupEntry) hokr with ⟨si, hsi, e1, hupd, hinsts, _⟩
    rcases dedupStep_first hw hidr hokr with ⟨e1b, hstep, hupd2⟩
    have he1 : e1b = e1 := by
      rw [hupd] at hupd2
      exact (Except.ok.inj hupd2).symm
    subst he1
    have hlab : instLabels (r :: rest) =
        (if pyStripStr si ≠ "" then [pyStripStr si] else []) ++ instLabels rest := by
      unfold instLabels
      rw [List.filterMap_cons]
      simp only [hsi]
      by_cases hsi2 : pyStripStr si ≠ ""
      · rw [if_pos hsi2, if_pos hsi2]
        rfl
      · rw [if_neg hsi2, if_neg hsi2]
        rfl
    have hinsts0 : e1b.insts = (if pyStripStr si ≠ "" then [pyStripStr si] else []) := by
      rw [hinsts]
      by_cases hsi2 : pyStripStr si ≠ ""
      · rw [if_pos hsi2, if_pos hsi2]
        rfl
      · rw [if_neg hsi2, if_neg hsi2]
    have hnd1 : e1b.insts.Nodup := by
      rw [hinsts0]
      split <;> simp
    have hmem1 : ∀ s, s ∈ e1b.insts ↔
        s ∈ (if pyStripStr si ≠ "" then [pyStripStr si] else []) := by
      intro s
      rw [hinsts0]
    have hne1 : ∀ s ∈ e1b.insts, s ≠ "" := by
      intro s hs
      rw [hinsts0] at hs
      by_cases hsi2 : pyStripStr si ≠ ""
      · rw [if_pos hsi2] at hs
        have : s = pyStripStr si := by simpa using hs
        rw [this]
        exact hsi2
      · rw [if_neg hsi2] at hs
        simp at hs
    rcases dedup_fold_single wid hw rest e1b
      (if pyStripStr si ≠ "" then [pyStripStr si] else [])
      (fun q hq => hid q (List.mem_cons_of_mem r hq))
      (fun q hq => hok q (List.mem_cons_of_mem r hq))
      hnd1 hmem1 hne1 with ⟨E, hfold, hnd2, hmem2, hne2, _⟩
    refine ⟨E, ?_, hnd2, ?_, hne2⟩
    · rw [List.foldlM_cons, hstep, exceptBind_ok]
      exact hfold
    · intro s
      rw [hmem2 s, hlab]

theorem build_inst (e : DedupEntry) (hne : ∀ s ∈ e.insts, s ≠ "") :
    rowGet (dedupBuildRow e) "institutions_extracted" =
      some (JVal.str (pipeJoin (sortStr e.insts))) := by
  unfold dedupBuildRow
  rw [rowGet_rowSet_ne _ _ _ _ (by decide), rowGet_rowSet_ne _ _ _ _ (by decide),
    rowGet_rowSet_self]
  have hfil : e.insts.filter (fun s => s ≠ "") = e.insts :=
    List.filter_eq_self.mpr (fun a ha => by simp [hne a ha])
  rw [hfil]

/-- C6. Merging the rows of one work: the merge produces exactly one row,
whose institutions_extracted is the pipe join of the sorted duplicate-free
list of the rows' stripped non-empty institution labels; the same list — and
hence the same string — results from any permutation of the input rows, so
the union is order-independent and never holds a duplicate even when two
entities contribute the same label. -/
theorem C6_institutions_sorted_union (wid : String) (pubs pubs2 : List Row)
    (hw : wid ≠ "") (hperm : pubs.Perm pubs2) (hne : pubs ≠ [])
    (hid : ∀ r ∈ pubs, rowGetD r "id" (.str "") = JVal.str wid)
    (hok : ∀ r ∈ pubs, dedupRowOk r = true) :
    ∃ row row2 L,
      deduplicate_publications_optimized pubs = Except.ok [row]
      ∧ deduplicate_publications_optimized pubs2 = Except.ok [row2]
      ∧ rowGet row "institutions_extracted" = some (JVal.str (pipeJoin L))
      ∧ rowGet row2 "institutions_extracted" = some (JVal.str (pipeJoin L))
      ∧ L.Nodup ∧ List.Sorted strLeR L
      ∧ (∀ s, s ∈ L ↔ s ∈ instLabels pubs) := by
  have hne2 : pubs2 ≠ [] := by
    intro h2
    rw [h2] at hperm
    exact hne hperm.eq_nil
  have hid2 : ∀ r ∈ pubs2, rowGetD r "id" (.str "") = JVal.str wid :=
    fun r hr => hid r (hperm.mem_iff.mpr hr)
  have hok2 : ∀ r ∈ pubs2, dedupRowOk r = true :=
    fun r hr => hok r (hperm.mem_iff.mpr hr)
  rcases dedup_fold_all wid hw pubs hne hid hok with ⟨E, hfold, hnd, hmem, hemp⟩
  rcases dedup_fold_all wid hw pubs2 hne2 hid2 hok2 with ⟨E2, hfold2, hnd2, hmem2, hemp2⟩
  have hlabperm : (instLabels pubs).Perm (instLabels pubs2) := hperm.filterMap _
  have hsorteq : sortStr E2.insts = sortStr E.insts := by
    refine sortStr_congr hnd2 hnd ?_
    intro s
    rw [hmem2 s, hmem s]
    exact Iff.symm (Iff.trans (Iff.rfl) (by rw [hlabperm.mem_iff]))
  refine ⟨dedupBuildRow E, dedupBuildRow E2, sortStr E.insts, ?_, ?_, ?_, ?_, ?_, ?_, ?_⟩
  · unfold deduplicate_publications_optimized
    rw [hfold, exceptBind_ok]
    rfl
  · unfold deduplicate_publications_optimized
    rw [hfold2, exceptBind_ok]
    rfl
  · exact build_inst E hemp
  · rw [build_inst E2 hemp2, hsorteq]
  · exact sortStr_nodup hnd
  · exact sortStr_sorted E.insts
  · intro s
    rw [sortStr_mem, hmem s]

/-- Three projected rows of one work: two entities carrying the same label
and one carrying another. -/
def pubsC6 : List Row :=
  [[("id", JVal.str "W1"), ("institutions_extracted", JVal.str "Beta"),
    ("authors_extracted", JVal.str ""), ("position_extracted", JVal.str "")],
   [("id", JVal.str "W1"), ("institutions_extracted", JVal.str "Alpha"),
    ("authors_extracted", JVal.str ""), ("position_extracted", JVal.str "")],
   [("id", JVal.str "W1"), ("institutions_extracted", JVal.str "Alpha"),
    ("authors_extracted", JVal.str ""), ("position_extracted", JVal.str "")]]

/-- The same rows presented in the reverse order. -/
def pubsC6r : List Row := pubsC6.reverse

/-- Witness for C6 at the concrete rows: one merged row per order, the same
sorted duplicate-free label list for both. -/
theorem C6_institutions_witness :
    ∃ row row2 L,
      deduplicate_publications_optimized pubsC6 = Except.ok [row]
      ∧ deduplicate_publications_optimized pubsC6r = Except.ok [row2]
      ∧ rowGet row "institutions_extracted" = some (JVal.str (pipeJoin L))
      ∧ rowGet row2 "institutions_extracted" = some (JVal.str (pipeJoin L))
      ∧ L.Nodup ∧ List.Sorted strLeR L
      ∧ (∀ s, s ∈ L ↔ s ∈ instLabels pubsC6) :=
  C6_institutions_sorted_union "W1" pubsC6 pubsC6r (by decide) (by decide) (by decide)
    (by decide) (by decide)

/-! Claim C4: typing discipline under which the Record Projector cannot
raise, and a counterexample showing that it can raise on malformed input. -/

/-- A JVal that is a string. -/
def isStr : JVal → Bool
  | .str _ => true
  | _ => false

/-- A JVal Python will format with a float format spec (bool is an int). -/
def numish : JVal → Bool
  | .num _ => true
  | .bool _ => true
  | _ => false

/-- A list value all of whose elements satisfy a predicate. -/
def listOf (p : JVal → Bool) : JVal → Bool
  | .arr xs => xs.all p
  | _ => false

/-- A value the string-join iteration accepts: a list of strings, a string
(iterated by characters) or a dict (iterated by its string keys). -/
def strIterOk : JVal → Bool
  | .arr xs => xs.all isStr
  | .str _ => true
  | .obj _ => true
  | _ => false

/-- The author sub-dict carries a string display name and a string id. -/
def authorObjOk (fs : Row) : Bool :=
  match rowGetD fs "author" (.obj []) with
  | .obj au => isStr (rowGetD au "display_name" (.str "Unknown"))
      && isStr (rowGetD au "id" (.str ""))
  | _ => false

/-- Institution element whose id is a string. -/
def instObjOk : JVal → Bool
  | .obj ifs => isStr (rowGetD ifs "id" (.str ""))
  | _ => false

/-- Raw affiliation entry: falsy entries are skipped, truthy ones must strip. -/
def affilItemOk (x : JVal) : Bool := !x.truthy || isStr x

/-- Well-shapedness of one authorship row for every authorship-driven
formatter and for the position extractor. -/
def wfAuthRowFull (fs : Row) : Bool :=
  authorObjOk fs
  && (match rowGetD fs "institutions" (.arr []) with
      | .arr is => is.all instObjOk
      | _ => false)
  && (match rowGetD fs "raw_affiliation_strings" (.arr []) with
      | .arr rs => rs.all affilItemOk
      | _ => false)

/-- Well-shapedness of one authorship list element. -/
def wfAuthFull (x : JVal) : Bool :=
  match x with
  | .obj fs => wfAuthRowFull fs
  | _ => false

/-- Well-shapedness of the authorships value (empty strings and empty dicts
iterate zero times; any other non-list shape raises somewhere). -/
def authsValOk (v : JVal) : Bool :=
  match v with
  | .arr xs => xs.all wfAuthFull
  | .str s => s == ""
  | .obj fs => fs.isEmpty
  | _ => false

/-- Well-shapedness of the authorships field of a record. -/
def authsOk (pub : Row) : Bool := authsValOk (rowGetD pub "authorships" (.arr []))

/-- Score-carrying row with a formattable score. -/
def scoreRowOk (fs : Row) : Bool := numish (rowGetD fs "score" (.num 0))

/-- Score-carrying element with a formattable score. -/
def scoreObjOk (t : JVal) : Bool :=
  match t with
  | .obj fs => scoreRowOk fs
  | _ => false

/-- Concept row with formattable level and score. -/
def conceptRowOk (fs : Row) : Bool :=
  numish (rowGetD fs "level" (.num 0)) && numish (rowGetD fs "score" (.num 0))

/-- Concept element with formattable level and score. -/
def conceptObjOk (c : JVal) : Bool :=
  match c with
  | .obj fs => conceptRowOk fs
  | _ => false

/-- Grant element whose bare-funder fallback cannot poison the join. -/
def grantObjOk (g : JVal) : Bool :=
  match g with
  | .obj fs => (rowGetD fs "award_id" (.str "")).truthy
      || isStr (rowGetD fs "funder_display_name" (.str "Unknown"))
  | _ => false

/-- Counts-by-year element with a comparable sort key. -/
def countObjOk (c : JVal) : Bool :=
  match c with
  | .obj fs => numish (rowGetD fs "year" (.num 0))
  | _ => false

/-- The typing discipline under which the field dispatch of the Record
Projector never raises, whatever fields are selected. The abstract inverted
index is deliberately unconstrained: its formatter catches its own failures. -/
def WellFormedPub (pub : Row) : Bool :=
  isStr (rowGetD pub "id" (.str ""))
  && (!(rowGetD pub "doi" (.str "")).truthy || isStr (rowGetD pub "doi" (.str "")))
  && authsOk pub
  && (match get_value_from_nested_dict pub "primary_topic.score" with
      | .null => true
      | v => numish v)
  && (!(get_value_from_nested_dict pub "primary_location.source.issn").truthy
      || strIterOk (get_value_from_nested_dict pub "primary_location.source.issn"))
  && strIterOk (rowGetD pub "corresponding_author_ids" (.arr []))
  && strIterOk (rowGetD pub "corresponding_institution_ids" (.arr []))
  && (!(rowGetD pub "counts_by_year" (.arr [])).truthy
      || listOf countObjOk (rowGetD pub "counts_by_year" (.arr [])))
  && (!(rowGetD pub "topics" (.arr [])).truthy
      || listOf scoreObjOk (rowGetD pub "topics" (.arr [])))
  && (!(rowGetD pub "concepts" (.arr [])).truthy
      || listOf conceptObjOk (rowGetD pub "concepts" (.arr [])))
  && (!(rowGetD pub "sustainable_development_goals" (.arr [])).truthy
      || listOf scoreObjOk (rowGetD pub "sustainable_development_goals" (.arr [])))
  && (!(rowGetD pub "grants" (.arr [])).truthy
      || listOf grantObjOk (rowGetD pub "grants" (.arr [])))
  && strIterOk (rowGetD pub "datasets" (.arr []))

theorem mapM_ok {α β : Type} (f : α → Except String β) :
    ∀ xs : List α, (∀ x ∈ xs, ∃ y, f x = Except.ok y) →
      ∃ ys, xs.mapM f = Except.ok ys := by
  intro xs
  induction xs with
  | nil => intro _; exact ⟨[], rfl⟩
  | cons x rest ih =>
    intro h
    rcases h x (by simp) with ⟨y, hy⟩
    rcases ih (fun q hq => h q (List.mem_cons_of_mem x hq)) with ⟨ys, hys⟩
    refine ⟨y :: ys, ?_⟩
    rw [List.mapM_cons, hy, exceptBind_ok, hys, exceptBind_ok]
    rfl

theorem foldlM_ok {σ α : Type} (f : σ → α → Except String σ) :
    ∀ (xs : List α), (∀ x ∈ xs, ∀ s : σ, ∃ s2, f s x = Except.ok s2) →
      ∀ s : σ, ∃ s2, xs.foldlM f s = Except.ok s2 := by
  intro xs
  induction xs with
  | nil => intro _ s; exact ⟨s, rfl⟩
  | cons x rest ih =>
    intro h s
    rcases h x (by simp) s with ⟨s1, hs1⟩
    rcases ih (fun q hq => h q (List.mem_cons_of_mem x hq)) s1 with ⟨s2, hs2⟩
    refine ⟨s2, ?_⟩
    rw [List.foldlM_cons, hs1, exceptBind_ok, hs2]

theorem mapM_obj_extract :
    ∀ xs : List JVal, (∀ x ∈ xs, ∃ fs, x = JVal.obj fs) →
      xs.mapM asObj = Except.ok (xs.map objFields) := by
  intro xs
  induction xs with
  | nil => intro _; rfl
  | cons x rest ih =>
    intro h
    rcases h x (by simp) with ⟨fs, hfs⟩
    subst hfs
    rw [List.mapM_cons, ih (fun q hq => h q (List.mem_cons_of_mem _ hq))]
    rfl

theorem iterIdStrings_ok {v : JVal} (h : strIterOk v = true) :
    ∃ ss, iterIdStrings v = Except.ok ss := by
  cases v with
  | arr xs =>
    have hall : ∀ x ∈ xs, ∃ y, asStrItem x = Except.ok y := by
      intro x hx
      have := List.all_eq_true.mp h x hx
      cases x <;> simp [isStr] at this ⊢
      all_goals exact ⟨_, rfl⟩
    rcases mapM_ok asStrItem xs hall with ⟨ys, hys⟩
    exact ⟨ys, hys⟩
  | str s => exact ⟨_, rfl⟩
  | obj fs => exact ⟨_, rfl⟩
  | null => simp [strIterOk] at h
  | bool b => simp [strIterOk] at h
  | num n => simp [strIterOk] at h

theorem fmt4_ok {v : JVal} (h : numish v = true) : ∃ s, fmt4 v = some s := by
  cases v <;> simp [numish, fmt4] at h ⊢

theorem fmt2_ok {v : JVal} (h : numish v = true) : ∃ s, fmt2 v = some s := by
  cases v <;> simp [numish, fmt2] at h ⊢

theorem format_topic_and_score_ok {v : JVal}
    (h : (!v.truthy || listOf scoreObjOk v) = true) :
    ∃ s, format_topic_and_score v = Except.ok s := by
  unfold format_topic_and_score
  by_cases ht : v.truthy = true
  · rw [ht] at h
    simp only [Bool.not_true, Bool.false_or] at h
    rw [ht]
    simp only [Bool.not_true, Bool.false_eq_true, if_false]
    cases v with
    | arr ts =>
      have hall : ∀ t ∈ ts, ∃ y, topicItem t = Except.ok y := by
        intro t htm
        have hsc := List.all_eq_true.mp h t htm
        cases t <;> simp [scoreObjOk] at hsc
        rename_i fs
        rcases fmt4_ok hsc with ⟨s, hs⟩
        refine ⟨pyStr (rowGetD fs "display_name" (.str "Unknown")) ++ " ; " ++ s, ?_⟩
        simp [topicItem, hs]
      rcases mapM_ok topicItem ts hall with ⟨ys, hys⟩
      refine ⟨String.mk (joinWith [' ', '|', ' '] (ys.map String.data)), ?_⟩
      show (do
          let items ← ts.mapM topicItem
          Except.ok (String.mk (joinWith [' ', '|', ' '] (items.map String.data)))) =
        Except.ok (String.mk (joinWith [' ', '|', ' '] (ys.map String.data)))
      rw [hys, exceptBind_ok]
    | null => simp [listOf] at h
    | bool b => simp [listOf] at h
    | num n => simp [listOf] at h
    | str s => simp [listOf] at h
    | obj fs => simp [listOf] at h
  · have ht2 : v.truthy = false := by
      cases hx : v.truthy
      · rfl
      · exact absurd hx ht
    rw [ht2]
    exact ⟨"", rfl⟩

theorem format_sdgs_ok {v : JVal}
    (h : (!v.truthy || listOf scoreObjOk v) = true) :
    ∃ s, format_sdgs v = Except.ok s := by
  unfold format_sdgs
  by_cases ht : v.truthy = true
  · rw [ht] at h
    simp only [Bool.not_true, Bool.false_or] at h
    rw [ht]
    simp only [Bool.not_true, Bool.false_eq_true, if_false]
    cases v with
    | arr ts =>
      have hall : ∀ t ∈ ts, ∃ y, sdgItem t = Except.ok y := by
        intro t htm
        have hsc := List.all_eq_true.mp h t htm
        cases t <;> simp [scoreObjOk] at hsc
        rename_i fs
        rcases fmt2_ok hsc with ⟨s, hs⟩
        refine ⟨pyStr (rowGetD fs "display_name" (.str "Unknown")) ++ " ; " ++ s, ?_⟩
        simp [sdgItem, hs]
      rcases mapM_ok sdgItem ts hall with ⟨ys, hys⟩
      refine ⟨String.mk (joinWith [' ', '|', ' '] (ys.map String.data)), ?_⟩
      show (do
          let items ← ts.mapM sdgItem
          Except.ok (String.mk (joinWith [' ', '|', ' '] (items.map String.data)))) =
        Except.ok (String.mk (joinWith [' ', '|', ' '] (ys.map String.data)))
      rw [hys, exceptBind_ok]
    | null => simp [listOf] at h
    | bool b => simp [listOf] at h
    | num n => simp [listOf] at h
    | str s => simp [listOf] at h
    | obj fs => simp [listOf] at h
  · have ht2 : v.truthy = false := by
      cases hx : v.truthy
      · rfl
      · exact absurd hx ht
    rw [ht2]
    exact ⟨"", rfl⟩

theorem exceptBind_exists {α β : Type} {m : Except String α} {f : α → Except String β}
    {a : α} (hm : m = Except.ok a) (hf : ∃ b, f a = Except.ok b) :
    ∃ b, (m >>= f) = Except.ok b := by
  rcases hf with ⟨b, hb⟩
  exact ⟨b, by rw [hm, exceptBind_ok, hb]⟩

theorem grantItem_ok {g : JVal} (h : grantObjOk g = true) :
    ∃ y, grantItem g = Except.ok y := by
  cases g <;> simp [grantObjOk] at h
  rename_i fs
  show ∃ y, (if (rowGetD fs "award_id" (.str "")).truthy then
      Except.ok (pyStr (rowGetD fs "funder_display_name" (.str "Unknown")) ++ " (" ++
        pyStr (rowGetD fs "award_id" (.str "")) ++ ")")
    else match rowGetD fs "funder_display_name" (.str "Unknown") with
      | .str s => Except.ok s
      | _ => Except.error "TypeError: join on a non-string") = Except.ok y
  by_cases ha : (rowGetD fs "award_id" (.str "")).truthy = true
  · rw [if_pos ha]
    exact ⟨_, rfl⟩
  · rw [if_neg ha]
    rcases h with haw | hfu
    · exact absurd haw ha
    · cases hf : rowGetD fs "funder_display_name" (.str "Unknown") <;>
        rw [hf] at hfu <;> simp [isStr] at hfu
      first
      | exact ⟨_, rfl⟩
      | (rw [hf]; exact ⟨_, rfl⟩)

theorem format_grants_ok {v : JVal}
    (h : (!v.truthy || listOf grantObjOk v) = true) :
    ∃ s, format_grants v = Except.ok s := by
  unfold format_grants
  by_cases ht : v.truthy = true
  · rw [ht] at h
    simp only [Bool.not_true, Bool.false_or] at h
    rw [ht]
    simp only [Bool.not_true, Bool.false_eq_true, if_false]
    cases v with
    | arr gs =>
      have hall : ∀ g ∈ gs, ∃ y, grantItem g = Except.ok y :=
        fun g hg => grantItem_ok (List.all_eq_true.mp h g hg)
      rcases mapM_ok grantItem gs hall with ⟨ys, hys⟩
      refine ⟨String.mk (joinWith [',', ' '] (ys.map String.data)), ?_⟩
      show (do
          let items ← gs.mapM grantItem
          Except.ok (String.mk (joinWith [',', ' '] (items.map String.data)))) =
        Except.ok (String.mk (joinWith [',', ' '] (ys.map String.data)))
      rw [hys, exceptBind_ok]
    | null => simp [listOf] at h
    | bool b => simp [listOf] at h
    | num n => simp [listOf] at h
    | str s => simp [listOf] at h
    | obj fs => simp [listOf] at h
  · have ht2 : v.truthy = false := by
      cases hx : v.truthy
      · rfl
      · exact absurd hx ht
    rw [ht2]
    exact ⟨"", rfl⟩

theorem countKeyed_ok {c : JVal} (h : countObjOk c = true) :
    ∃ y, countKeyed c = Except.ok y := by
  cases c <;> simp [countObjOk] at h
  rename_i fs
  show ∃ y, (do
      let k ← yearKey fs
      Except.ok (fs, k)) = Except.ok y
  unfold yearKey
  cases hy : rowGetD fs "year" (.num 0) <;> rw [hy] at h <;> simp [numish] at h
  · first
    | exact ⟨_, rfl⟩
    | (rw [hy]; exact ⟨_, rfl⟩)
  · first
    | exact ⟨_, rfl⟩
    | (rw [hy]; exact ⟨_, rfl⟩)

theorem format_counts_by_year_ok {v : JVal}
    (h : (!v.truthy || listOf countObjOk v) = true) :
    ∃ s, format_counts_by_year v = Except.ok s := by
  unfold format_counts_by_year
  by_cases ht : v.truthy = true
  · rw [ht] at h
    simp only [Bool.not_true, Bool.false_or] at h
    rw [ht]
    simp only [Bool.not_true, Bool.false_eq_true, if_false]
    cases v with
    | arr cs =>
      have hall : ∀ c ∈ cs, ∃ y, countKeyed c = Except.ok y :=
        fun c hc => countKeyed_ok (List.all_eq_true.mp h c hc)
      rcases mapM_ok countKeyed cs hall with ⟨ys, hys⟩
      show ∃ s, (cs.mapM countKeyed >>= fun rows =>
        Except.ok (String.mk (joinWith [' ', '|', ' ']
          (((List.insertionSort countsGe rows).map (fun ck =>
            pyStr (rowGetD ck.1 "cited_by_count" (.num 0)) ++ " (" ++
              pyStr (rowGetD ck.1 "year" (.str "Unknown")) ++ ")")).map String.data)))) =
        Except.ok s
      exact exceptBind_exists hys ⟨_, rfl⟩
    | null => simp [listOf] at h
    | bool b => simp [listOf] at h
    | num n => simp [listOf] at h
    | str s => simp [listOf] at h
    | obj fs => simp [listOf] at h
  · have ht2 : v.truthy = false := by
      cases hx : v.truthy
      · rfl
      · exact absurd hx ht
    rw [ht2]
    exact ⟨"", rfl⟩

theorem ite_ok_exists {α : Type} {c : Prop} [Decidable c] (A B : α) :
    ∃ y, (if c then Except.ok A else Except.ok B) = (Except.ok y : Except String α) := by
  by_cases hc : c
  · exact ⟨A, if_pos hc⟩
  · exact ⟨B, if_neg hc⟩

theorem conceptStep_ok {fs : Row} (h : conceptRowOk fs = true) :
    ∀ acc, ∃ acc2, conceptStep acc fs = Except.ok acc2 := by
  intro acc
  have h2 : numish (rowGetD fs "level" (.num 0)) = true ∧
      numish (rowGetD fs "score" (.num 0)) = true := by
    simpa [conceptRowOk] using h
  rcases h2 with ⟨hl, hs⟩
  rcases fmt4_ok hs with ⟨sc, hsc⟩
  cases hv : rowGetD fs "level" (.num 0) <;> rw [hv] at hl <;> simp [numish] at hl
  · simp only [conceptStep, hv, exceptBind_ok, hsc]
    exact ite_ok_exists _ _
  · simp only [conceptStep, hv, exceptBind_ok, hsc]
    exact ite_ok_exists _ _

theorem format_concepts_ok {v : JVal}
    (h : (!v.truthy || listOf conceptObjOk v) = true) :
    ∃ s, format_concepts v = Except.ok s := by
  unfold format_concepts
  by_cases ht : v.truthy = true
  · rw [ht] at h
    simp only [Bool.not_true, Bool.false_or] at h
    rw [ht]
    simp only [Bool.not_true, Bool.false_eq_true, if_false]
    cases v with
    | arr cs =>
      have hobj : ∀ x ∈ cs, ∃ fs, x = JVal.obj fs := by
        intro x hx
        have := List.all_eq_true.mp h x hx
        cases x <;> simp [conceptObjOk] at this
        exact ⟨_, rfl⟩
      have hrows : ∀ fs ∈ cs.map objFields, conceptRowOk fs = true := by
        intro fs hfs
        rcases List.mem_map.mp hfs with ⟨x, hx, hxe⟩
        have := List.all_eq_true.mp h x hx
        rcases hobj x hx with ⟨fs2, he⟩
        subst he
        simp [conceptObjOk] at this
        have : objFields (JVal.obj fs2) = fs2 := rfl
        rw [this] at hxe
        rw [← hxe]
        assumption
      have hall : ∀ fs ∈ cs.map objFields, ∀ acc, ∃ acc2,
          conceptStep acc fs = Except.ok acc2 :=
        fun fs hfs acc => conceptStep_ok (hrows fs hfs) acc
      rcases foldlM_ok conceptStep (cs.map objFields) hall [] with ⟨groups, hg⟩
      show ∃ s, (cs.mapM asObj >>= fun rows => conceptsGroup rows >>= fun groups =>
        Except.ok (String.mk (joinWith [' ', '|', ' ']
          ((((List.insertionSort levelLe groups).flatMap (fun g => g.2)).map
            String.data))))) = Except.ok s
      refine exceptBind_exists (mapM_obj_extract cs hobj) ?_
      refine exceptBind_exists (show conceptsGroup (cs.map objFields) = Except.ok groups
        from hg) ?_
      exact ⟨_, rfl⟩
    | null => simp [listOf] at h
    | bool b => simp [listOf] at h
    | num n => simp [listOf] at h
    | str s => simp [listOf] at h
    | obj fs => simp [listOf] at h
  · have ht2 : v.truthy = false := by
      cases hx : v.truthy
      · rfl
      · exact absurd hx ht
    rw [ht2]
    exact ⟨"", rfl⟩

theorem wfAuthRowFull_parts {fs : Row} (h : wfAuthRowFull fs = true) :
    authorObjOk fs = true ∧
      (match rowGetD fs "institutions" (.arr []) with
        | .arr is => is.all instObjOk
        | _ => false) = true ∧
      (match rowGetD fs "raw_affiliation_strings" (.arr []) with
        | .arr rs => rs.all affilItemOk
        | _ => false) = true := by
  have h2 := h
  unfold wfAuthRowFull at h2
  simp only [Bool.and_eq_true] at h2
  exact ⟨h2.1.1, h2.1.2, h2.2⟩

theorem wfAuthRowFull_wfAuthRow {fs : Row} (h : wfAuthRowFull fs = true) :
    wfAuthRow fs = true := by
  have ha := (wfAuthRowFull_parts h).1
  unfold authorObjOk at ha
  unfold wfAuthRow
  cases hau : rowGetD fs "author" (.obj []) <;> rw [hau] at ha <;> simp at ha
  rcases ha with ⟨_, hid⟩
  cases hid2 : rowGetD _ "id" (.str "") <;> rw [hid2] at hid <;> simp [isStr] at hid
  simp [hid2]

theorem iterAuthorships_ok {v : JVal} (h : authsValOk v = true) :
    iterAuthorships v = Except.ok none ∨
      ∃ xs, v = JVal.arr xs ∧ (∀ x ∈ xs, wfAuthFull x = true) ∧
        iterAuthorships v = Except.ok (some (xs.map objFields)) := by
  by_cases ht : v.truthy = true
  · right
    cases v with
    | arr xs =>
      refine ⟨xs, rfl, ?_, ?_⟩
      · intro x hx
        exact List.all_eq_true.mp (by simpa [authsValOk] using h) x hx
      · have hobj : ∀ x ∈ xs, ∃ fs, x = JVal.obj fs := by
          intro x hx
          have := List.all_eq_true.mp (by simpa [authsValOk] using h) x hx
          cases x <;> simp [wfAuthFull] at this
          exact ⟨_, rfl⟩
        unfold iterAuthorships
        rw [ht]
        simp only [Bool.not_true, Bool.false_eq_true, if_false]
        show (do
            let rows ← xs.mapM asObj
            Except.ok (some rows)) = Except.ok (some (xs.map objFields))
        rw [mapM_obj_extract xs hobj, exceptBind_ok]
    | null => simp [JVal.truthy] at ht
    | bool b => simp [authsValOk] at h
    | num n => simp [authsValOk] at h
    | str s =>
      have : s = "" := by simpa [authsValOk] using h
      rw [this] at ht
      simp [JVal.truthy] at ht
    | obj fs =>
      have : fs.isEmpty = true := by simpa [authsValOk] using h
      rw [JVal.truthy, this] at ht
      simp at ht
  · left
    have ht2 : v.truthy = false := by
      cases hx : v.truthy
      · rfl
      · exact absurd hx ht
    unfold iterAuthorships
    rw [ht2]
    rfl

theorem authorsItem_ok {a : Row} (h : authorObjOk a = true) :
    ∃ y, authorsItem a = Except.ok y := by
  unfold authorObjOk at h
  unfold authorsItem
  cases hau : rowGetD a "author" (.obj []) <;> rw [hau] at h <;> simp at h
  rename_i au
  rcases h with ⟨hdn, _⟩
  cases hdn2 : rowGetD au "display_name" (.str "Unknown") <;>
    rw [hdn2] at hdn <;> simp [isStr] at hdn
  rename_i dn
  show ∃ y, (match rowGetD au "display_name" (.str "Unknown") with
    | JVal.str dn =>
      if (rowGetD a "is_corresponding" (.bool false)).truthy then
        Except.ok (pyStripStr dn ++ " (corresponding)")
      else Except.ok (pyStripStr dn)
    | _ => Except.error "AttributeError: strip") = Except.ok y
  rw [hdn2]
  exact ite_ok_exists _ _

theorem format_authors_simple_ok {v : JVal} (h : authsValOk v = true) :
    ∃ s, format_authors_simple v = Except.ok s := by
  rcases iterAuthorships_ok h with hnone | ⟨xs, hv, hwf, hsome⟩
  · refine ⟨"", ?_⟩
    unfold format_authors_simple
    rw [hnone, exceptBind_ok]
  · have hall : ∀ a ∈ xs.map objFields, ∃ y, authorsItem a = Except.ok y := by
      intro a ha
      rcases List.mem_map.mp ha with ⟨x, hx, hxe⟩
      have hwx := hwf x hx
      cases x <;> simp [wfAuthFull] at hwx
      rename_i fs
      have : objFields (JVal.obj fs) = fs := rfl
      rw [this] at hxe
      rw [← hxe]
      exact authorsItem_ok (wfAuthRowFull_parts hwx).1
    rcases mapM_ok authorsItem (xs.map objFields) hall with ⟨names, hnames⟩
    unfold format_authors_simple
    rw [hsome, exceptBind_ok]
    show ∃ s, (do
        let names ← (xs.map objFields).mapM authorsItem
        Except.ok (String.mk (joinWith [' ', '|', ' '] (names.map String.data)))) =
      Except.ok s
    exact exceptBind_exists hnames ⟨_, rfl⟩

theorem instStep_ok {i : JVal} (h : instObjOk i = true) :
    ∀ acc, ∃ acc2, instStep acc i = Except.ok acc2 := by
  intro acc
  cases i <;> simp [instObjOk] at h
  rename_i ifs
  cases hid : rowGetD ifs "id" (.str "") <;> rw [hid] at h <;> simp [isStr] at h
  rename_i s
  show ∃ acc2,
    (if !(rowGetD ifs "id" (.str "")).truthy then Except.ok acc
     else match rowGetD ifs "id" (.str "") with
      | .str s =>
        if acc.1.contains s then Except.ok acc
        else Except.ok (acc.1 ++ [s], acc.2 ++
          [pyStr (rowGetD ifs "display_name" (.str "Unknown")) ++ " ; " ++
            pyStr (rowGetD ifs "type" (.str "Unknown")) ++ " ; " ++
            pyStr (rowGetD ifs "country_code" (.str "Unknown")) ++ " (" ++
            removePat OPENALEX_PATTERN s ++ ")"])
      | _ => Except.error "TypeError: unhashable or non-string id") = Except.ok acc2
  by_cases htr : (!(rowGetD ifs "id" (.str "")).truthy) = true
  · rw [if_pos htr]
    exact ⟨acc, rfl⟩
  · rw [if_neg htr, hid]
    exact ite_ok_exists _ _

theorem instAuth_ok {a : Row}
    (h : (match rowGetD a "institutions" (.arr []) with
      | .arr is => is.all instObjOk
      | _ => false) = true) :
    ∀ acc, ∃ acc2, instAuth acc a = Except.ok acc2 := by
  intro acc
  unfold instAuth
  cases hins : rowGetD a "institutions" (.arr []) <;> rw [hins] at h <;> simp at h
  rename_i is
  show ∃ acc2, List.foldlM instStep acc is = Except.ok acc2
  exact foldlM_ok instStep is (fun i him acc2 => instStep_ok (h i him) acc2) acc

theorem format_institutions_ok {v : JVal} (h : authsValOk v = true) :
    ∃ s, format_institutions v = Except.ok s := by
  rcases iterAuthorships_ok h with hnone | ⟨xs, hv, hwf, hsome⟩
  · refine ⟨"", ?_⟩
    unfold format_institutions
    rw [hnone, exceptBind_ok]
  · have hall : ∀ a ∈ xs.map objFields, ∀ acc, ∃ acc2, instAuth acc a = Except.ok acc2 := by
      intro a ha acc
      rcases List.mem_map.mp ha with ⟨x, hx, hxe⟩
      have hwx := hwf x hx
      cases x <;> simp [wfAuthFull] at hwx
      rename_i fs
      have : objFields (JVal.obj fs) = fs := rfl
      rw [this] at hxe
      rw [← hxe]
      exact instAuth_ok (wfAuthRowFull_parts hwx).2.1 acc
    rcases foldlM_ok instAuth (xs.map objFields) hall ([], []) with ⟨st, hst⟩
    unfold format_institutions
    rw [hsome, exceptBind_ok]
    show ∃ s, (do
        let st ← (xs.map objFields).foldlM instAuth ([], [])
        Except.ok (String.mk (joinWith [' ', '|', ' '] (st.2.map String.data)))) =
      Except.ok s
    exact exceptBind_exists hst ⟨_, rfl⟩

theorem affilAdd_ok {x : JVal} (h : affilItemOk x = true) :
    ∀ acc, ∃ acc2, affilAdd acc x = Except.ok acc2 := by
  intro acc
  unfold affilAdd
  by_cases ht : x.truthy = true
  · have hs : isStr x = true := by
      unfold affilItemOk at h
      rw [ht] at h
      simpa using h
    cases x <;> simp [isStr] at hs
    rename_i s
    show ∃ acc2,
      (if !(JVal.str s).truthy then Except.ok acc
       else if pyStripStr s = "" then Except.ok acc
       else Except.ok (insertNew acc (clean_text_field (pyStripStr s)))) = Except.ok acc2
    by_cases htr : (!(JVal.str s).truthy) = true
    · rw [if_pos htr]
      exact ⟨acc, rfl⟩
    · rw [if_neg htr]
      exact ite_ok_exists _ _
  · have ht2 : x.truthy = false := by
      cases hx : x.truthy
      · rfl
      · exact absurd hx ht
    rw [ht2]
    exact ⟨acc, rfl⟩

theorem affilAuth_ok {a : Row}
    (h : (match rowGetD a "raw_affiliation_strings" (.arr []) with
      | .arr rs => rs.all affilItemOk
      | _ => false) = true) :
    ∀ acc, ∃ acc2, affilAuth acc a = Except.ok acc2 := by
  intro acc
  unfold affilAuth
  cases hraw : rowGetD a "raw_affiliation_strings" (.arr []) <;> rw [hraw] at h <;> simp at h
  rename_i rs
  show ∃ acc2, List.foldlM affilAdd acc rs = Except.ok acc2
  exact foldlM_ok affilAdd rs (fun x hxm acc2 => affilAdd_ok (h x hxm) acc2) acc

theorem format_raw_affiliation_strings_ok {v : JVal} (h : authsValOk v = true) :
    ∃ s, format_raw_affiliation_strings v = Except.ok s := by
  rcases iterAuthorships_ok h with hnone | ⟨xs, hv, hwf, hsome⟩
  · refine ⟨"", ?_⟩
    unfold format_raw_affiliation_strings
    rw [hnone, exceptBind_ok]
  · have hall : ∀ a ∈ xs.map objFields, ∀ acc, ∃ acc2, affilAuth acc a = Except.ok acc2 := by
      intro a ha acc
      rcases List.mem_map.mp ha with ⟨x, hx, hxe⟩
      have hwx := hwf x hx
      cases x <;> simp [wfAuthFull] at hwx
      rename_i fs
      have : objFields (JVal.obj fs) = fs := rfl
      rw [this] at hxe
      rw [← hxe]
      exact affilAuth_ok (wfAuthRowFull_parts hwx).2.2 acc
    rcases foldlM_ok affilAuth (xs.map objFields) hall [] with ⟨affs, haffs⟩
    unfold format_raw_affiliation_strings
    rw [hsome, exceptBind_ok]
    show ∃ s, (do
        let affs ← (xs.map objFields).foldlM affilAuth []
        Except.ok (String.mk (joinWith [' ', '|', ' ']
          ((sortStr affs).map String.data)))) = Except.ok s
    exact exceptBind_exists haffs ⟨_, rfl⟩

theorem scanPositions_ok (idc : String) :
    ∀ (rows : List Row), (∀ fs ∈ rows, wfAuthRow fs = true) →
      ∀ (total i : Nat), ∃ s, scanPositions idc total i rows = Except.ok s := by
  intro rows
  induction rows with
  | nil => intro _ total i; exact ⟨"Not found", rfl⟩
  | cons a rest ih =>
    intro h total i
    have ha := h a (by simp)
    have hrest : ∀ fs ∈ rest, wfAuthRow fs = true :=
      fun fs hfs => h fs (List.mem_cons_of_mem a hfs)
    unfold scanPositions
    rw [authIdMatches_ok idc ha, exceptBind_ok]
    cases hm : authMatchRow idc a with
    | true =>
      simp only [hm, if_true]
      exact ⟨_, rfl⟩
    | false =>
      simp only [hm, Bool.false_eq_true, if_false]
      exact ih hrest total (i + 1)

theorem extract_author_position_ok (pub : Row) (aid : String)
    (h : authsOk pub = true) :
    ∃ s, extract_author_position pub aid = Except.ok s := by
  unfold authsOk at h
  cases hv : rowGetD pub "authorships" (.arr []) <;> rw [hv] at h
  case arr xs =>
    have hwf : ∀ x ∈ xs, wfAuthFull x = true :=
      List.all_eq_true.mp (by simpa [authsValOk] using h)
    have hobj : ∀ x ∈ xs, ∃ fs, x = JVal.obj fs := by
      intro x hx
      have := hwf x hx
      cases x <;> simp [wfAuthFull] at this
      exact ⟨_, rfl⟩
    have hwfr : ∀ fs ∈ xs.map objFields, wfAuthRow fs = true := by
      intro fs hfs
      rcases List.mem_map.mp hfs with ⟨x, hx, hxe⟩
      have hwx := hwf x hx
      cases x <;> simp [wfAuthFull] at hwx
      rename_i fs2
      have : objFields (JVal.obj fs2) = fs2 := rfl
      rw [this] at hxe
      rw [← hxe]
      exact wfAuthRowFull_wfAuthRow hwx
    rcases scanPositions_ok (pyLower aid) (xs.map objFields) hwfr
      (xs.map objFields).length 0 with ⟨s, hs⟩
    refine ⟨s, ?_⟩
    unfold extract_author_position
    rw [hv]
    show (do
        let rows ← xs.mapM asObj
        scanPositions (pyLower aid) rows.length 0 rows) = Except.ok s
    rw [mapM_obj_extract xs hobj, exceptBind_ok]
    exact hs
  case str s =>
    have hse : s = "" := by simpa [authsValOk] using h
    subst hse
    refine ⟨"Not found", ?_⟩
    unfold extract_author_position
    rw [hv]
    rfl
  case obj fs =>
    have hfe : fs = [] := by
      have : fs.isEmpty = true := by simpa [authsValOk] using h
      simpa [List.isEmpty_iff] using this
    subst hfe
    refine ⟨"Not found", ?_⟩
    unfold extract_author_position
    rw [hv]
  case null => simp [authsValOk] at h
  case bool b => simp [authsValOk] at h
  case num n => simp [authsValOk] at h

theorem projectField_ok (pub : Row) (field : String) (h : WellFormedPub pub = true) :
    ∃ v, projectField pub field = Except.ok v := by
  have hparts := h
  unfold WellFormedPub at hparts
  simp only [Bool.and_eq_true] at hparts
  rcases hparts with
    ⟨⟨⟨⟨⟨⟨⟨⟨⟨⟨⟨⟨hid, hdoi⟩, hauth⟩, hscore⟩, hissn⟩, hcai⟩, hcii⟩, hcounts⟩,
      htop⟩, hconc⟩, hsdg⟩, hgr⟩, hdat⟩
  have hav : authsValOk (rowGetD pub "authorships" (.arr [])) = true := hauth
  unfold projectField
  by_cases hf1 : field = "id"
  · rw [if_pos hf1]
    cases hidv : rowGetD pub "id" (.str "") <;> rw [hidv] at hid <;> simp [isStr] at hid
    first
    | exact ⟨_, rfl⟩
    | (rw [hidv]; exact ⟨_, rfl⟩)
  rw [if_neg hf1]
  by_cases hf2 : field = "doi"
  · rw [if_pos hf2]
    by_cases hdt : (rowGetD pub "doi" (.str "")).truthy = true
    · rw [if_pos hdt]
      have hds : isStr (rowGetD pub "doi" (.str "")) = true := by
        rw [hdt] at hdoi
        simpa using hdoi
      cases hdv : rowGetD pub "doi" (.str "") <;> rw [hdv] at hds <;> simp [isStr] at hds
      first
      | exact ⟨_, rfl⟩
      | (rw [hdv]; exact ⟨_, rfl⟩)
    · rw [if_neg hdt]
      exact ⟨_, rfl⟩
  rw [if_neg hf2]
  by_cases hf3 : field = "display_name"
  · rw [if_pos hf3]
    exact ⟨_, rfl⟩
  rw [if_neg hf3]
  by_cases hf4 : field = "abstract_inverted_index"
  · rw [if_pos hf4]
    exact ⟨_, rfl⟩
  rw [if_neg hf4]
  by_cases hf5 : field = "authorships"
  · rw [if_pos hf5]
    rcases format_authors_simple_ok hav with ⟨s, hs⟩
    exact exceptBind_exists hs ⟨_, rfl⟩
  rw [if_neg hf5]
  by_cases hf6 : field = "institutions"
  · rw [if_pos hf6]
    rcases format_institutions_ok hav with ⟨s, hs⟩
    exact exceptBind_exists hs ⟨_, rfl⟩
  rw [if_neg hf6]
  by_cases hf7 : field = "raw_affiliation_strings"
  · rw [if_pos hf7]
    rcases format_raw_affiliation_strings_ok hav with ⟨s, hs⟩
    exact exceptBind_exists hs ⟨_, rfl⟩
  rw [if_neg hf7]
  by_cases hf8 : field = "primary_topic_and_score"
  · rw [if_pos hf8]
    by_cases hc : (get_value_from_nested_dict pub "primary_topic.display_name").truthy = true
        ∧ get_value_from_nested_dict pub "primary_topic.score" ≠ JVal.null
    · rw [if_pos hc]
      have hnum : numish (get_value_from_nested_dict pub "primary_topic.score") = true := by
        rcases hc with ⟨-, hcne⟩
        cases hsv : get_value_from_nested_dict pub "primary_topic.score"
        case null =>
          first
          | exact absurd hsv hcne
          | exact absurd rfl hcne
        case num n => rfl
        case bool b => rfl
        case str s =>
          rw [hsv] at hscore
          simpa using hscore
        case arr xs =>
          rw [hsv] at hscore
          simpa using hscore
        case obj fs =>
          rw [hsv] at hscore
          simpa using hscore
      rcases fmt4_ok hnum with ⟨f, hf⟩
      rw [hf]
      exact ⟨_, rfl⟩
    · rw [if_neg hc]
      exact ⟨_, rfl⟩
  rw [if_neg hf8]
  by_cases hf9 : field.startsWith "primary_location.source" = true
  · rw [if_pos hf9]
    by_cases hf9b : field = "primary_location.source.issn"
    · rw [if_pos hf9b]
      subst hf9b
      by_cases hvt : (get_value_from_nested_dict pub "primary_location.source.issn").truthy = true
      · rw [if_pos hvt]
        have hsi : strIterOk
            (get_value_from_nested_dict pub "primary_location.source.issn") = true := by
          rw [hvt] at hissn
          simpa using hissn
        rcases iterIdStrings_ok hsi with ⟨ss, hss⟩
        exact exceptBind_exists hss ⟨_, rfl⟩
      · rw [if_neg hvt]
        exact exceptBind_exists
          (show iterIdStrings (JVal.arr []) = Except.ok [] from rfl) ⟨_, rfl⟩
    · rw [if_neg hf9b]
      exact ⟨_, rfl⟩
  rw [if_neg hf9]
  by_cases hf10 : field = "corresponding_author_ids"
  · rw [if_pos hf10]
    rcases iterIdStrings_ok hcai with ⟨ss, hss⟩
    exact exceptBind_exists hss ⟨_, rfl⟩
  rw [if_neg hf10]
  by_cases hf11 : field = "corresponding_institution_ids"
  · rw [if_pos hf11]
    rcases iterIdStrings_ok hcii with ⟨ss, hss⟩
    exact exceptBind_exists hss ⟨_, rfl⟩
  rw [if_neg hf11]
  by_cases hf12 : field = "counts_by_year"
  · rw [if_pos hf12]
    rcases format_counts_by_year_ok hcounts with ⟨s, hs⟩
    exact exceptBind_exists hs ⟨_, rfl⟩
  rw [if_neg hf12]
  by_cases hf13 : field = "topics"
  · rw [if_pos hf13]
    rcases format_topic_and_score_ok htop with ⟨s, hs⟩
    exact exceptBind_exists hs ⟨_, rfl⟩
  rw [if_neg hf13]
  by_cases hf14 : field = "concepts"
  · rw [if_pos hf14]
    rcases format_concepts_ok hconc with ⟨s, hs⟩
    exact exceptBind_exists hs ⟨_, rfl⟩
  rw [if_neg hf14]
  by_cases hf15 : field = "sustainable_development_goals"
  · rw [if_pos hf15]
    rcases format_sdgs_ok hsdg with ⟨s, hs⟩
    exact exceptBind_exists hs ⟨_, rfl⟩
  rw [if_neg hf15]
  by_cases hf16 : field = "grants"
  · rw [if_pos hf16]
    rcases format_grants_ok hgr with ⟨s, hs⟩
    exact exceptBind_exists hs ⟨_, rfl⟩
  rw [if_neg hf16]
  by_cases hf17 : field = "datasets"
  · rw [if_pos hf17]
    rcases iterIdStrings_ok hdat with ⟨ss, hss⟩
    exact exceptBind_exists hss ⟨_, rfl⟩
  rw [if_neg hf17]
  exact ⟨_, rfl⟩

theorem projectStep_ok (pub : Row) (h : WellFormedPub pub = true) (r : Row) (field : String) :
    ∃ r2, projectStep pub r field = Except.ok r2 := by
  rcases projectField_ok pub field h with ⟨v, hv⟩
  unfold projectStep
  exact exceptBind_exists hv ⟨_, rfl⟩

theorem processOnePub_ok (pub : Row) (eid en et : String) (sel : List String)
    (h : WellFormedPub pub = true) :
    ∃ r, processOnePub pub eid en et sel = Except.ok r := by
  have hfold : ∀ f ∈ sel, ∀ r : Row, ∃ r2, projectStep pub r f = Except.ok r2 :=
    fun f _ r => projectStep_ok pub h r f
  unfold processOnePub
  by_cases het : et = "institution"
  · rw [if_pos het, exceptBind_ok]
    exact foldlM_ok (projectStep pub) sel hfold _
  · rw [if_neg het]
    have hauth : authsOk pub = true := by
      have hparts := h
      unfold WellFormedPub at hparts
      simp only [Bool.and_eq_true] at hparts
      exact hparts.1.1.1.1.1.1.1.1.1.1.2
    rcases extract_author_position_ok pub eid hauth with ⟨pos, hpos⟩
    rw [hpos, exceptBind_ok, exceptBind_ok]
    exact foldlM_ok (projectStep pub) sel hfold _

theorem mapM_ok_length {α β : Type} (f : α → Except String β) :
    ∀ xs : List α, (∀ x ∈ xs, ∃ y, f x = Except.ok y) →
      ∃ ys, xs.mapM f = Except.ok ys ∧ ys.length = xs.length := by
  intro xs
  induction xs with
  | nil => intro _; exact ⟨[], rfl, rfl⟩
  | cons x rest ih =>
    intro h
    rcases h x (by simp) with ⟨y, hy⟩
    rcases ih (fun q hq => h q (List.mem_cons_of_mem x hq)) with ⟨ys, hys, hlen⟩
    refine ⟨y :: ys, ?_, by simp [hlen]⟩
    rw [List.mapM_cons, hy, exceptBind_ok, hys, exceptBind_ok]
    rfl

/-- A raw record whose primary topic score is a string: well shaped JSON, but
outside the projector's typing discipline. -/
def pubC4bad : Row :=
  [("id", JVal.str "https://openalex.org/W9"),
   ("primary_topic", JVal.obj [("display_name", JVal.str "T"),
     ("score", JVal.str "high")])]

/-- C4 counterexample: one malformed field aborts the whole batch with an
uncaught exception instead of degrading that field to a placeholder. -/
theorem C4_counterexample :
    process_publications_batch [pubC4bad] "I" "N" "institution"
      ["primary_topic_and_score"] =
      Except.error "ValueError: format spec f on a non-number" := by
  rfl

/-- C4 (corrected): under the typing discipline WellFormedPub on every raw
record, the Record Projector never raises: the whole batch maps to exactly one
output row per input record, whatever fields are selected and whatever the
triggering entity is. (Only the abstract formatter catches its own failures;
every other field's failure propagates, as the counterexample shows.) -/
theorem C4_projector_total_on_well_formed (results : List Row)
    (entity_id entity_name entity_type : String) (selected_metadata : List String)
    (h : ∀ pub ∈ results, WellFormedPub pub = true) :
    ∃ rows, process_publications_batch results entity_id entity_name entity_type
        selected_metadata = Except.ok rows ∧ rows.length = results.length := by
  unfold process_publications_batch
  exact mapM_ok_length _ results
    (fun pub hp => processOnePub_ok pub entity_id entity_name entity_type
      selected_metadata (h pub hp))

/-- A well-formed record with a corrupt abstract (the one field whose
formatter catches its own failure). -/
def pubC4w : Row :=
  [("id", JVal.str "https://openalex.org/W1"),
   ("abstract_inverted_index", JVal.num 5),
   ("authorships", JVal.arr [JVal.obj
     [("author", JVal.obj [("display_name", JVal.str "Alice"),
       ("id", JVal.str "https://openalex.org/A1")]),
      ("institutions", JVal.arr []),
      ("raw_affiliation_strings", JVal.arr [])]]),
   ("topics", JVal.arr [JVal.obj [("display_name", JVal.str "T"),
     ("score", JVal.num 3)]])]

theorem C4_projector_witness :
    (∀ pub ∈ [pubC4w], WellFormedPub pub = true) ∧
      ∃ rows, process_publications_batch [pubC4w] "A1" "Alice" "author"
          ["abstract_inverted_index", "topics"] = Except.ok rows ∧
        rows.length = ([pubC4w] : List Row).length :=
  ⟨by decide, C4_projector_total_on_well_formed [pubC4w] "A1" "Alice" "author"
    ["abstract_inverted_index", "topics"] (by decide)⟩
